import Mathlib

/-!
# Verification of the anno117-assets-explorer configuration/CLI/rendering engine

This file gives a shallow embedding of the engine underlying the tool's
command-line surface (`src/engine/config.py`, `src/engine/cli.py`,
`src/engine/logger.py`, `src/app_path.py`) and proves or refutes the
specified properties about it.

JSON-like data is modelled by the mutual inductive family `JValue` /
`JList` / `JObj`.  Objects are association lists that keep insertion
order, exactly as Python dicts do.  Numbers are modelled as integers
(the claims under study never depend on float behaviour).
-/

set_option maxHeartbeats 1000000

namespace AnnoEngine

mutual

/-- A JSON-representable Python value. -/
inductive JValue where
  | null : JValue
  | bool (b : Bool) : JValue
  | num (n : Int) : JValue
  | str (s : String) : JValue
  | arr (xs : JList) : JValue
  | obj (fields : JObj) : JValue
  deriving DecidableEq

/-- A JSON array (Python list). -/
inductive JList where
  | nil : JList
  | cons (v : JValue) (tl : JList) : JList
  deriving DecidableEq

/-- A JSON object (Python dict) as an insertion-ordered association list. -/
inductive JObj where
  | nil : JObj
  | cons (k : String) (v : JValue) (tl : JObj) : JObj
  deriving DecidableEq

end

namespace JObj

/-- First-match lookup, mirroring Python `d[k]` / `k in d`. -/
def get? : JObj → String → Option JValue
  | .nil, _ => none
  | .cons k' v tl, k => if k' = k then some v else tl.get? k

/-- Whether a key is present (`k in d`). -/
def hasKey (o : JObj) (k : String) : Bool :=
  (o.get? k).isSome

/-- The sequence of keys in insertion order (`list(d.keys())`). -/
def keys : JObj → List String
  | .nil => []
  | .cons k _ tl => k :: tl.keys

/-- Number of entries. -/
def size : JObj → Nat
  | .nil => 0
  | .cons _ _ tl => tl.size + 1

end JObj

-- Structural size used for termination of the merge functions.
mutual

/-- Size of a value. -/
def sizeV : JValue → Nat
  | .obj o => sizeO o + 1
  | .arr l => sizeL l + 1
  | _ => 1

def sizeL : JList → Nat
  | .nil => 0
  | .cons v tl => sizeV v + sizeL tl + 1

def sizeO : JObj → Nat
  | .nil => 0
  | .cons _ v tl => sizeV v + sizeO tl + 1

end

/-!
## The deep-merge helpers

`utilities.deep_merge_dicts`, `utilities.nest_dict` and
`utilities.dict_path` are referenced throughout the engine
(`src/engine/config.py`, `src/app_path.py`) but their definitions are not
part of the provided sources.

Modelled from the spec: "Merge is a deep, recursive dictionary union: for
each key present in the higher-precedence source, if both sides are maps
the merge recurses, otherwise the higher-precedence value replaces the
lower one; arrays are replaced wholesale, never concatenated"; the variadic
`deep_merge_dicts(a, b, c, ...)` folds left with later arguments taking
precedence, matching the repository's own `_deep_merge(base, override)`
in `src/config.py` (override wins, in-place update of existing keys keeps
their position, new keys are appended).
-/

/-- `result[k] = v` when `k` is already present (keeping its position),
`result` with `(k, v)` appended otherwise. -/
def setPlain : JObj → String → JValue → JObj
  | .nil, k, v => .cons k v .nil
  | .cons k' v' tl, k, v =>
    if k' = k then .cons k' v tl else .cons k' v' (setPlain tl k v)

mutual

/-- `_deep_merge(base, override)`: override wins; recurses when both sides
are objects. -/
def deepMergeV : JValue → JValue → JValue
  | .obj a, .obj b => .obj (mergeO a b)
  | _, b => b

/-- Fold every entry of `b` into `a` (Python `result = base.copy();
for k, v in override.items(): ...`). -/
def mergeO : JObj → JObj → JObj
  | acc, .nil => acc
  | acc, .cons k v tl => mergeO (setPlain acc k (mergedVal (acc.get? k) v)) tl

/-- The value stored for a key: recursive merge when both the existing and
the incoming value are objects, the incoming value otherwise. -/
def mergedVal : Option JValue → JValue → JValue
  | some (.obj o1), .obj o2 => .obj (mergeO o1 o2)
  | _, v => v

end

/-- Variadic `deep_merge_dicts`, later arguments win. -/
def deepMergeDicts (ds : List JObj) : JObj :=
  match ds with
  | [] => .nil
  | d :: rest => rest.foldl mergeO d

/-- Modelled from the spec: `utilities.nest_dict(d, key)` re-inserts `d`
at the dotted path `key`, building one singleton object per path segment
("re-insert at that path before merge with sibling dicts").  The key is
modelled as its non-empty list of dot-separated segments. -/
def nestDict (d : JObj) : List String → JObj
  | [] => d
  | k :: rest => .cons k (.obj (nestDict d rest)) .nil

/-- Modelled from the spec: `utilities.dict_path(d, key, default)` walks
the dotted path `key` through nested objects and returns the value there,
or `none` (the caller's `default`) when a segment is missing or a
non-object is hit before the path ends. -/
def dictPath (d : JObj) : List String → Option JValue
  | [] => some (.obj d)
  | k :: rest =>
    match d.get? k with
    | some v =>
      match rest with
      | [] => some v
      | _ :: _ =>
        match v with
        | .obj o => dictPath o rest
        | _ => none
    | none => none

/-- `dict_path(..., default={})` convenience: result coerced to an object,
defaulting to empty. -/
def dictPathObj (d : JObj) (p : List String) : JObj :=
  match dictPath d p with
  | some (.obj o) => o
  | _ => .nil

/-- Build an object from a list of entries (convenience for literals). -/
def JObj.ofList : List (String × JValue) → JObj
  | [] => .nil
  | (k, v) :: rest => .cons k v (JObj.ofList rest)

/-!
## Well-formedness

Python dicts cannot contain duplicate keys; `wfO` states that an object
(and, recursively, every nested object) has pairwise distinct keys.
-/

mutual

/-- Well-formed value: every nested object has distinct keys. -/
def wfV : JValue → Bool
  | .obj o => wfO o
  | .arr l => wfL l
  | _ => true

/-- Well-formed list of values. -/
def wfL : JList → Bool
  | .nil => true
  | .cons v tl => wfV v && wfL tl

/-- Well-formed object: head key absent from the tail, recursively. -/
def wfO : JObj → Bool
  | .nil => true
  | .cons k v tl => !(tl.hasKey k) && wfV v && wfO tl

end

-- Sanity checks of the merge semantics against hand-traced Python runs.

example :
    mergeO (JObj.ofList [("a", .num 1)]) (JObj.ofList [("a", .num 2)])
      = JObj.ofList [("a", .num 2)] := by decide

-- override wins wholesale when either side is not a dict
example :
    mergeO (JObj.ofList [("k", .obj (JObj.ofList [("x", .num 1)]))])
        (JObj.ofList [("k", .num 2)])
      = JObj.ofList [("k", .num 2)] := by decide

-- both dicts: recursive union, base entry kept, new key appended
example :
    mergeO (JObj.ofList [("k", .obj (JObj.ofList [("x", .num 1)]))])
        (JObj.ofList [("k", .obj (JObj.ofList [("y", .num 3)]))])
      = JObj.ofList [("k", .obj (JObj.ofList [("x", .num 1), ("y", .num 3)]))] := by
  decide

-- updated keys keep their position; new keys are appended in override order
example :
    mergeO (JObj.ofList [("b", .num 2)]) (JObj.ofList [("a", .num 1), ("b", .num 9)])
      = JObj.ofList [("b", .num 9), ("a", .num 1)] := by decide

-- deep_merge_dicts is NOT associative:
-- F={k:{x:1}}, S={k:2}, O={k:{y:3}}
example :
    mergeO (mergeO (JObj.ofList [("k", .obj (JObj.ofList [("x", .num 1)]))])
        (JObj.ofList [("k", .num 2)]))
        (JObj.ofList [("k", .obj (JObj.ofList [("y", .num 3)]))])
      = JObj.ofList [("k", .obj (JObj.ofList [("y", .num 3)]))] := by decide

/-!
## Merge theory

Pointwise and key-sequence characterizations of `mergeO`, used to prove
the reload-idempotence property (C3).
-/

/-- Pointwise combination of two optional values, mirroring what `mergeO`
does at a single key. -/
def cmbO (x : Option JValue) : Option JValue → Option JValue
  | none => x
  | some v => some (mergedVal x v)

/-- Structural induction principle for objects (the `induction` tactic
cannot be used directly on a member of a mutual inductive family). -/
theorem JObj.recO {P : JObj → Prop} (hnil : P .nil)
    (hcons : ∀ k v tl, P tl → P (.cons k v tl)) : ∀ o, P o
  | .nil => hnil
  | .cons k v tl => hcons k v tl (JObj.recO hnil hcons tl)

/-- Structural induction principle for value lists. -/
theorem JList.recL {P : JList → Prop} (hnil : P .nil)
    (hcons : ∀ v tl, P tl → P (.cons v tl)) : ∀ l, P l
  | .nil => hnil
  | .cons v tl => hcons v tl (JList.recL hnil hcons tl)

theorem get?_setPlain (a : JObj) (k : String) (v : JValue) (k₀ : String) :
    (setPlain a k v).get? k₀ = if k₀ = k then some v else a.get? k₀ := by
  induction a using JObj.recO with
  | hnil =>
    simp only [setPlain, JObj.get?]
    by_cases h : k = k₀
    · subst h; simp
    · simp [h, Ne.symm h]
  | hcons k' v' tl ih =>
    simp only [setPlain]
    by_cases h : k' = k
    · subst h
      simp only [if_pos rfl, JObj.get?]
      by_cases h2 : k' = k₀
      · subst h2; simp
      · simp [h2, Ne.symm h2]
    · simp only [if_neg h, JObj.get?]
      by_cases h2 : k' = k₀
      · subst h2
        simp [h]
      · simp [h2, ih]

theorem hasKey_setPlain (a : JObj) (k : String) (v : JValue) (k₀ : String) :
    (setPlain a k v).hasKey k₀ = (k₀ == k || a.hasKey k₀) := by
  simp only [JObj.hasKey, get?_setPlain]
  by_cases h : k₀ = k <;> simp [h]

theorem mem_keys_iff_hasKey (a : JObj) (k : String) :
    k ∈ a.keys ↔ a.hasKey k = true := by
  induction a using JObj.recO with
  | hnil => simp [JObj.keys, JObj.hasKey, JObj.get?]
  | hcons k' v tl ih =>
    simp only [JObj.keys, JObj.hasKey, JObj.get?, List.mem_cons]
    by_cases h : k' = k
    · subst h; simp
    · simp [h, Ne.symm h, ih, JObj.hasKey]

theorem keys_setPlain (a : JObj) (k : String) (v : JValue) :
    (setPlain a k v).keys = if a.hasKey k then a.keys else a.keys ++ [k] := by
  induction a using JObj.recO with
  | hnil => simp [setPlain, JObj.keys, JObj.hasKey, JObj.get?]
  | hcons k' v' tl ih =>
    simp only [setPlain]
    by_cases h : k' = k
    · subst h
      simp [JObj.keys, JObj.hasKey, JObj.get?]
    · simp only [if_neg h, JObj.keys, JObj.hasKey, JObj.get?, if_neg (Ne.symm h)]
      rw [ih]
      simp only [JObj.hasKey]
      by_cases h2 : (tl.get? k).isSome <;> simp [h2]

theorem get?_mergeO (a b : JObj) (hb : wfO b = true) (k : String) :
    (mergeO a b).get? k = cmbO (a.get? k) (b.get? k) := by
  induction b using JObj.recO generalizing a with
  | hnil => simp [mergeO, JObj.get?, cmbO]
  | hcons kb vb tl ih =>
    simp only [wfO, Bool.and_eq_true, Bool.not_eq_true'] at hb
    obtain ⟨⟨hkb, _⟩, htl⟩ := hb
    simp only [mergeO]
    rw [ih _ htl]
    by_cases h : k = kb
    · subst h
      have : tl.get? k = none := by
        simp only [JObj.hasKey] at hkb
        exact Option.not_isSome_iff_eq_none.mp (by simp [hkb])
      simp [this, cmbO, get?_setPlain, JObj.get?]
    · have : ¬(kb = k) := fun hh => h hh.symm
      simp [cmbO, get?_setPlain, JObj.get?, h, this]

theorem keys_mergeO (a b : JObj) (hb : wfO b = true) :
    (mergeO a b).keys = a.keys ++ b.keys.filter (fun s => !a.hasKey s) := by
  induction b using JObj.recO generalizing a with
  | hnil => simp [mergeO, JObj.keys]
  | hcons kb vb tl ih =>
    simp only [wfO, Bool.and_eq_true, Bool.not_eq_true'] at hb
    obtain ⟨⟨hkb, _⟩, htl⟩ := hb
    simp only [mergeO]
    rw [ih _ htl]
    have hmem : kb ∉ tl.keys := by
      rw [mem_keys_iff_hasKey]; simp [hkb]
    have hfilter : ∀ (c : JObj),
        tl.keys.filter (fun s => !(setPlain a kb (mergedVal (a.get? kb) vb)).hasKey s)
          = tl.keys.filter (fun s => !a.hasKey s) := by
      intro c
      apply List.filter_congr
      intro s hs
      have hne : ¬(s == kb) := by
        simp only [beq_iff_eq]
        intro hh; exact hmem (hh ▸ hs)
      simp [hasKey_setPlain, hne]
    rw [keys_setPlain]
    by_cases h : a.hasKey kb
    · simp only [if_pos h, hfilter a, JObj.keys, List.filter_cons]
      simp [h]
    · simp only [if_neg h, hfilter a, JObj.keys, List.filter_cons]
      simp only [Bool.not_eq_true] at h
      simp [h, List.append_assoc]


theorem hasKey_mergeO (a b : JObj) (hb : wfO b = true) (k : String) :
    (mergeO a b).hasKey k = (a.hasKey k || b.hasKey k) := by
  simp only [JObj.hasKey, get?_mergeO a b hb]
  cases hbk : b.get? k with
  | none => simp [cmbO]
  | some v => simp [cmbO]

theorem get?_eq_none_of_not_hasKey (o : JObj) (k : String)
    (h : o.hasKey k = false) : o.get? k = none := by
  simp only [JObj.hasKey] at h
  exact Option.not_isSome_iff_eq_none.mp (by simp [h])

/-- The underlying object of an optional value, empty if not an object. -/
def objD : Option JValue → JObj
  | some (.obj o) => o
  | _ => .nil

theorem wfV_get? (o : JObj) (k : String) (v : JValue)
    (hw : wfO o = true) (hg : o.get? k = some v) : wfV v = true := by
  induction o using JObj.recO with
  | hnil => simp [JObj.get?] at hg
  | hcons k' v' tl ih =>
    simp only [wfO, Bool.and_eq_true] at hw
    simp only [JObj.get?] at hg
    by_cases h : k' = k
    · simp only [if_pos h] at hg
      cases hg; exact hw.1.2
    · simp only [if_neg h] at hg
      exact ih hw.2 hg

theorem sizeV_get? (o : JObj) (k : String) (v : JValue)
    (hg : o.get? k = some v) : sizeV v ≤ sizeO o := by
  induction o using JObj.recO with
  | hnil => simp [JObj.get?] at hg
  | hcons k' v' tl ih =>
    simp only [JObj.get?] at hg
    by_cases h : k' = k
    · simp only [if_pos h] at hg
      cases hg
      simp only [sizeO]; omega
    · simp only [if_neg h] at hg
      have := ih hg
      simp only [sizeO]; omega

theorem keys_nodup_of_wf (o : JObj) (hw : wfO o = true) : o.keys.Nodup := by
  induction o using JObj.recO with
  | hnil => simp [JObj.keys]
  | hcons k v tl ih =>
    simp only [wfO, Bool.and_eq_true, Bool.not_eq_true'] at hw
    simp only [JObj.keys, List.nodup_cons]
    refine ⟨fun hmem => ?_, ih hw.2⟩
    rw [mem_keys_iff_hasKey] at hmem
    rw [hw.1.1] at hmem
    exact Bool.false_ne_true hmem

theorem keys_eq_nil_iff (o : JObj) : o.keys = [] ↔ o = .nil := by
  cases o <;> simp [JObj.keys]

/-- Extensionality: objects with duplicate-free equal key sequences and
equal lookups are equal. -/
theorem JObj.ext_of : ∀ (a b : JObj), a.keys.Nodup → a.keys = b.keys →
    (∀ k, a.get? k = b.get? k) → a = b := by
  intro a
  induction a using JObj.recO with
  | hnil =>
    intro b _ hk _
    exact ((keys_eq_nil_iff b).mp hk.symm).symm
  | hcons k v tl ih =>
    intro b hnd hk hg
    cases b with
    | nil => simp [JObj.keys] at hk
    | cons kb vb tlb =>
      simp only [JObj.keys] at hk
      obtain ⟨hkk, hkt⟩ := List.cons.inj hk
      subst hkk
      have hv : v = vb := by
        have := hg k
        simp [JObj.get?] at this
        exact this
      subst hv
      simp only [JObj.keys, List.nodup_cons] at hnd
      have htl : tl = tlb := by
        apply ih tlb hnd.2 hkt
        intro k₀
        by_cases h : k₀ = k
        · subst h
          have h1 : tl.get? k₀ = none := by
            apply get?_eq_none_of_not_hasKey
            rw [Bool.eq_false_iff]
            intro hh
            exact hnd.1 ((mem_keys_iff_hasKey tl k₀).mpr hh)
          have h2 : tlb.get? k₀ = none := by
            apply get?_eq_none_of_not_hasKey
            rw [Bool.eq_false_iff]
            intro hh
            apply hnd.1
            rw [hkt]
            exact (mem_keys_iff_hasKey tlb k₀).mpr hh
          rw [h1, h2]
        · have := hg k₀
          simp only [JObj.get?, if_neg (Ne.symm h)] at this
          exact this
      rw [htl]

/-- Concatenation of two objects. -/
def JObj.append : JObj → JObj → JObj
  | .nil, b => b
  | .cons k v tl, b => .cons k v (tl.append b)

theorem append_nil (a : JObj) : a.append .nil = a := by
  induction a using JObj.recO with
  | hnil => rfl
  | hcons k v tl ih => simp [JObj.append, ih]

theorem setPlain_of_not_hasKey (a : JObj) (k : String) (v : JValue)
    (h : a.hasKey k = false) : setPlain a k v = a.append (.cons k v .nil) := by
  induction a using JObj.recO with
  | hnil => simp [setPlain, JObj.append]
  | hcons k' v' tl ih =>
    simp only [JObj.hasKey, JObj.get?] at h
    by_cases h2 : k' = k
    · subst h2; simp at h
    · simp only [setPlain, if_neg h2, JObj.append]
      rw [ih]
      simp only [JObj.hasKey]
      simpa [h2] using h

theorem append_assoc (a b c : JObj) :
    (a.append b).append c = a.append (b.append c) := by
  induction a using JObj.recO with
  | hnil => simp [JObj.append]
  | hcons k v tl ih => simp [JObj.append, ih]

theorem hasKey_append (a b : JObj) (k : String) :
    (a.append b).hasKey k = (a.hasKey k || b.hasKey k) := by
  induction a using JObj.recO with
  | hnil => simp [JObj.append, JObj.hasKey, JObj.get?]
  | hcons k' v tl ih =>
    simp only [JObj.append, JObj.hasKey, JObj.get?] at ih ⊢
    by_cases h : k' = k <;> simp [h, ih]

theorem mergeO_of_disjoint : ∀ (b a : JObj), wfO b = true →
    (∀ k, a.hasKey k = true → b.hasKey k = false) →
    mergeO a b = a.append b := by
  intro b
  induction b using JObj.recO with
  | hnil =>
    intro a _ _
    rw [append_nil]
    rfl
  | hcons kb vb tl ih =>
    intro a hb hdisj
    simp only [wfO, Bool.and_eq_true, Bool.not_eq_true'] at hb
    have hak : a.hasKey kb = false := by
      rw [Bool.eq_false_iff]
      intro hh
      have := hdisj kb hh
      simp [JObj.hasKey, JObj.get?] at this
    simp only [mergeO]
    rw [get?_eq_none_of_not_hasKey a kb hak]
    have hmv : mergedVal none vb = vb := by cases vb <;> rfl
    rw [hmv, setPlain_of_not_hasKey a kb vb hak]
    rw [ih (a.append (.cons kb vb .nil)) hb.2]
    · rw [append_assoc]
      rfl
    · intro k hk
      rw [hasKey_append] at hk
      rcases Bool.or_eq_true_iff.mp hk with h | h
      · have := hdisj k h
        simp only [JObj.hasKey, JObj.get?] at this
        by_cases h2 : kb = k
        · simp [h2] at this
        · simp only [JObj.hasKey]
          simpa [h2] using this
      · simp only [JObj.hasKey, JObj.get?] at h
        by_cases h2 : k = kb
        · subst h2
          exact hb.1.1
        · simp [Ne.symm h2] at h

theorem mergeO_nil_right (a : JObj) : mergeO a .nil = a := rfl

theorem mergeO_nil_left (b : JObj) (hb : wfO b = true) : mergeO .nil b = b := by
  rw [mergeO_of_disjoint b .nil hb]
  · rfl
  · intro k hk
    simp [JObj.hasKey, JObj.get?] at hk


theorem wfO_iff (o : JObj) : wfO o = true ↔
    o.keys.Nodup ∧ ∀ k v, o.get? k = some v → wfV v = true := by
  induction o using JObj.recO with
  | hnil =>
    simp [wfO, JObj.keys, JObj.get?]
  | hcons k v tl ih =>
    simp only [wfO, Bool.and_eq_true, Bool.not_eq_true', JObj.keys,
      List.nodup_cons, ih]
    constructor
    · rintro ⟨⟨hk, hv⟩, hnd, hvals⟩
      refine ⟨⟨fun hmem => ?_, hnd⟩, ?_⟩
      · rw [mem_keys_iff_hasKey, hk] at hmem
        exact Bool.false_ne_true hmem
      · intro k₀ v₀ hg
        simp only [JObj.get?] at hg
        by_cases h : k = k₀
        · simp only [if_pos h] at hg; cases hg; exact hv
        · simp only [if_neg h] at hg; exact hvals k₀ v₀ hg
    · rintro ⟨⟨hmem, hnd⟩, hvals⟩
      refine ⟨⟨?_, ?_⟩, hnd, ?_⟩
      · rw [Bool.eq_false_iff]
        intro hh
        exact hmem ((mem_keys_iff_hasKey tl k).mpr hh)
      · apply hvals k v
        simp [JObj.get?]
      · intro k₀ v₀ hg
        apply hvals k₀ v₀
        simp only [JObj.get?]
        by_cases h : k = k₀
        · subst h
          exfalso
          apply hmem
          rw [mem_keys_iff_hasKey]
          simp [JObj.hasKey, hg]
        · simp [h, hg]

theorem wfO_mergeO_aux : ∀ (n : Nat) (a b : JObj),
    sizeO a + sizeO b ≤ n → wfO a = true → wfO b = true →
    wfO (mergeO a b) = true := by
  intro n
  induction n using Nat.strong_induction_on with
  | _ n ih =>
    intro a b hsz ha hb
    rw [wfO_iff]
    constructor
    · rw [keys_mergeO a b hb, List.nodup_append]
      refine ⟨keys_nodup_of_wf a ha, List.Nodup.filter _ (keys_nodup_of_wf b hb), ?_⟩
      intro s hsa hsb
      rw [List.mem_filter] at hsb
      rw [mem_keys_iff_hasKey] at hsa
      simp [hsa] at hsb
    · intro k v hg
      rw [get?_mergeO a b hb] at hg
      cases hbk : b.get? k with
      | none =>
        rw [hbk] at hg
        simp only [cmbO] at hg
        exact wfV_get? a k v ha hg
      | some vb =>
        rw [hbk] at hg
        simp only [cmbO] at hg
        cases hg
        have hvb : wfV vb = true := wfV_get? b k vb hb hbk
        cases hak : a.get? k with
        | none =>
          have : mergedVal none vb = vb := by cases vb <;> rfl
          rw [this]
          exact hvb
        | some va =>
          cases va with
          | obj oa =>
            cases vb with
            | obj ob =>
              simp only [mergedVal, wfV]
              have hwa : wfO oa = true := by
                have := wfV_get? a k (.obj oa) ha hak
                simpa [wfV] using this
              have hwb : wfO ob = true := by simpa [wfV] using hvb
              have hsa : sizeV (.obj oa) ≤ sizeO a := sizeV_get? a k _ hak
              have hsb : sizeV (.obj ob) ≤ sizeO b := sizeV_get? b k _ hbk
              simp only [sizeV] at hsa hsb
              exact ih (sizeO oa + sizeO ob) (by omega) oa ob (le_refl _) hwa hwb
            | null => simpa [mergedVal]
            | bool _ => simpa [mergedVal]
            | num _ => simpa [mergedVal]
            | str _ => simpa [mergedVal]
            | arr _ => simpa [mergedVal]
          | null => cases vb <;> simpa [mergedVal]
          | bool _ => cases vb <;> simpa [mergedVal]
          | num _ => cases vb <;> simpa [mergedVal]
          | str _ => cases vb <;> simpa [mergedVal]
          | arr _ => cases vb <;> simpa [mergedVal]

theorem wfO_mergeO (a b : JObj) (ha : wfO a = true) (hb : wfO b = true) :
    wfO (mergeO a b) = true :=
  wfO_mergeO_aux (sizeO a + sizeO b) a b (le_refl _) ha hb


/-- Discriminator: is this value an object? -/
def isObjV : JValue → Bool
  | .obj _ => true
  | _ => false

theorem mergedVal_of_not_obj (x : Option JValue) (v : JValue)
    (h : isObjV v = false) : mergedVal x v = v := by
  rcases x with _ | xv
  · cases v <;> rfl
  · cases xv <;> cases v <;> first | rfl | simp [isObjV] at h

theorem cmbO_none_right (x : Option JValue) : cmbO x none = x := rfl

theorem cmbO_some_not_obj (x : Option JValue) (v : JValue)
    (h : isObjV v = false) : cmbO x (some v) = some v := by
  simp [cmbO, mergedVal_of_not_obj x v h]

theorem objD_of_not_obj (v : JValue) (h : isObjV v = false) :
    objD (some v) = .nil := by
  cases v <;> first | rfl | simp [isObjV] at h

theorem mergedVal_obj_of_wf (x : Option JValue) (o : JObj) (ho : wfO o = true) :
    mergedVal x (.obj o) = .obj (mergeO (objD x) o) := by
  rcases x with _ | xv
  · simp [mergedVal, objD, mergeO_nil_left o ho]
  · cases xv with
    | obj o1 => rfl
    | null => simp [mergedVal, objD, mergeO_nil_left o ho]
    | bool b => simp [mergedVal, objD, mergeO_nil_left o ho]
    | num n => simp [mergedVal, objD, mergeO_nil_left o ho]
    | str s => simp [mergedVal, objD, mergeO_nil_left o ho]
    | arr l => simp [mergedVal, objD, mergeO_nil_left o ho]

theorem cmbO_some_obj (x : Option JValue) (o : JObj) (ho : wfO o = true) :
    cmbO x (some (.obj o)) = some (.obj (mergeO (objD x) o)) := by
  simp [cmbO, mergedVal_obj_of_wf x o ho]

theorem wfO_objD (x : Option JValue) (hx : ∀ v, x = some v → wfV v = true) :
    wfO (objD x) = true := by
  rcases x with _ | v
  · rfl
  · cases v with
    | obj o =>
      have := hx _ rfl
      simpa [objD, wfV] using this
    | null => rfl
    | bool b => rfl
    | num n => rfl
    | str s => rfl
    | arr l => rfl

theorem sizeO_objD_le (x : Option JValue) (o : JObj) (k : String)
    (hx : o.get? k = x) : sizeO (objD x) ≤ sizeO o := by
  rcases x with _ | v
  · simp [objD, sizeO]
  · have := sizeV_get? o k v hx
    cases v <;> simp only [objD, sizeO] <;> simp only [sizeV] at this <;> omega

theorem filter_eq_nil_of {α : Type} (l : List α) (p : α → Bool)
    (h : ∀ x ∈ l, p x = false) : l.filter p = [] := by
  induction l with
  | nil => rfl
  | cons a l ih =>
    rw [List.filter_cons, if_neg (by simp [h a (by simp)])]
    exact ih (fun x hx => h x (by simp [hx]))

theorem filter_filter_eq {α : Type} (l : List α) (p q : α → Bool) :
    (l.filter q).filter p = l.filter (fun s => q s && p s) := by
  induction l with
  | nil => rfl
  | cons a l ih =>
    by_cases hq : q a
    · by_cases hp : p a <;>
        simp [List.filter_cons, hq, hp, ih]
    · simp [List.filter_cons, hq, ih]

theorem objD_obj (o : JObj) : objD (some (.obj o)) = o := rfl

theorem objD_none : objD none = .nil := rfl

/-- Single-key combination step of the G3 identity; the interesting
object-on-object cases are discharged by the induction hypothesis `hIH`. -/
theorem cmb_step (z f y o : Option JValue)
    (hwf : ∀ v, f = some v → wfV v = true)
    (hwy : ∀ v, y = some v → wfV v = true)
    (hwo : ∀ v, o = some v → wfV v = true)
    (hIH : ∀ (fo Y' O' : JObj), f = some (.obj fo) →
        (Y' = objD y ∨ Y' = .nil) → (O' = objD o ∨ O' = .nil) →
        mergeO (mergeO (objD z) fo) (mergeO (mergeO fo Y') O')
          = mergeO (mergeO (objD z) fo) (mergeO Y' O')) :
    cmbO (cmbO z f) (cmbO (cmbO f y) o) = cmbO (cmbO z f) (cmbO y o) := by
  cases o with
  | none =>
    simp only [cmbO_none_right]
    cases y with
    | none =>
      simp only [cmbO_none_right]
      rcases f with _ | fv
      · rfl
      · cases hfv : isObjV fv with
        | false => simp only [cmbO_some_not_obj _ fv hfv]
        | true =>
          obtain ⟨fo, rfl⟩ : ∃ w, fv = .obj w := by
            cases fv <;> first | exact ⟨_, rfl⟩ | simp [isObjV] at hfv
          have hwfo : wfO fo = true := by
            have := hwf _ rfl; simpa [wfV] using this
          simp only [cmbO_some_obj _ fo hwfo, objD_obj, objD_none]
          have h := hIH fo .nil .nil rfl (Or.inr rfl) (Or.inr rfl)
          simp only [mergeO_nil_right] at h
          exact congrArg (fun w => some (JValue.obj w)) h
    | some yv =>
      cases hyv : isObjV yv with
      | false => simp only [cmbO_some_not_obj _ yv hyv]
      | true =>
        obtain ⟨yo, rfl⟩ : ∃ w, yv = .obj w := by
          cases yv <;> first | exact ⟨_, rfl⟩ | simp [isObjV] at hyv
        have hwyo : wfO yo = true := by
          have := hwy _ rfl; simpa [wfV] using this
        rcases f with _ | fv
        · simp only [cmbO_some_obj _ yo hwyo, objD_obj, objD_none, mergeO_nil_left yo hwyo]
        · cases hfv : isObjV fv with
          | false =>
            simp only [cmbO_some_obj _ yo hwyo, objD_of_not_obj fv hfv,
              mergeO_nil_left yo hwyo, cmbO_some_not_obj _ fv hfv, objD_obj, objD_none]
          | true =>
            obtain ⟨fo, rfl⟩ : ∃ w, fv = .obj w := by
              cases fv <;> first | exact ⟨_, rfl⟩ | simp [isObjV] at hfv
            have hwfo : wfO fo = true := by
              have := hwf _ rfl; simpa [wfV] using this
            have hw1 : wfO (mergeO fo yo) = true := wfO_mergeO fo yo hwfo hwyo
            simp only [cmbO_some_obj _ yo hwyo, objD_obj, objD_none,
              cmbO_some_obj _ fo hwfo, cmbO_some_obj _ (mergeO fo yo) hw1]
            have h := hIH fo yo .nil rfl (Or.inl rfl) (Or.inr rfl)
            simp only [mergeO_nil_right] at h
            exact congrArg (fun w => some (JValue.obj w)) h
  | some ov =>
    cases hov : isObjV ov with
    | false => simp only [cmbO_some_not_obj _ ov hov]
    | true =>
      obtain ⟨oo, rfl⟩ : ∃ w, ov = .obj w := by
        cases ov <;> first | exact ⟨_, rfl⟩ | simp [isObjV] at hov
      have hwoo : wfO oo = true := by
        have := hwo _ rfl; simpa [wfV] using this
      cases y with
      | none =>
        simp only [cmbO_none_right]
        rcases f with _ | fv
        · rfl
        · cases hfv : isObjV fv with
          | false =>
            simp only [cmbO_some_obj _ oo hwoo, objD_of_not_obj fv hfv,
              mergeO_nil_left oo hwoo, cmbO_some_not_obj _ fv hfv, objD_obj, objD_none]
          | true =>
            obtain ⟨fo, rfl⟩ : ∃ w, fv = .obj w := by
              cases fv <;> first | exact ⟨_, rfl⟩ | simp [isObjV] at hfv
            have hwfo : wfO fo = true := by
              have := hwf _ rfl; simpa [wfV] using this
            have hw1 : wfO (mergeO fo oo) = true := wfO_mergeO fo oo hwfo hwoo
            simp only [cmbO_some_obj _ oo hwoo, objD_obj, objD_none,
              cmbO_some_obj _ fo hwfo, cmbO_some_obj _ (mergeO fo oo) hw1,
              mergeO_nil_left oo hwoo]
            have h := hIH fo .nil oo rfl (Or.inr rfl) (Or.inl rfl)
            simp only [mergeO_nil_right] at h
            rw [mergeO_nil_left oo hwoo] at h
            exact congrArg (fun w => some (JValue.obj w)) h
      | some yv =>
        cases hyv : isObjV yv with
        | false =>
          simp only [cmbO_some_not_obj _ yv hyv,
            cmbO_some_obj _ oo hwoo, objD_of_not_obj yv hyv,
            mergeO_nil_left oo hwoo, objD_obj, objD_none]
        | true =>
          obtain ⟨yo, rfl⟩ : ∃ w, yv = .obj w := by
            cases yv <;> first | exact ⟨_, rfl⟩ | simp [isObjV] at hyv
          have hwyo : wfO yo = true := by
            have := hwy _ rfl; simpa [wfV] using this
          have hw3 : wfO (mergeO yo oo) = true := wfO_mergeO _ _ hwyo hwoo
          rcases f with _ | fv
          · simp only [cmbO_some_obj _ yo hwyo, objD_obj, objD_none,
              mergeO_nil_left yo hwyo,
              cmbO_some_obj _ oo hwoo, cmbO_some_obj _ (mergeO yo oo) hw3]
          · cases hfv : isObjV fv with
            | false =>
              simp only [cmbO_some_obj _ yo hwyo, objD_of_not_obj fv hfv,
                mergeO_nil_left yo hwyo, cmbO_some_not_obj _ fv hfv, objD_obj, objD_none,
                cmbO_some_obj _ oo hwoo, cmbO_some_obj _ (mergeO yo oo) hw3]
            | true =>
              obtain ⟨fo, rfl⟩ : ∃ w, fv = .obj w := by
                cases fv <;> first | exact ⟨_, rfl⟩ | simp [isObjV] at hfv
              have hwfo : wfO fo = true := by
                have := hwf _ rfl; simpa [wfV] using this
              have hw1 : wfO (mergeO fo yo) = true := wfO_mergeO fo yo hwfo hwyo
              have hw2 : wfO (mergeO (mergeO fo yo) oo) = true :=
                wfO_mergeO _ _ hw1 hwoo
              simp only [cmbO_some_obj _ yo hwyo, objD_obj, objD_none,
                cmbO_some_obj _ oo hwoo,
                cmbO_some_obj _ fo hwfo,
                cmbO_some_obj _ (mergeO fo yo) hw1,
                cmbO_some_obj _ (mergeO (mergeO fo yo) oo) hw2,
                cmbO_some_obj _ (mergeO yo oo) hw3]
              exact congrArg (fun w => some (JValue.obj w))
                (hIH fo yo oo rfl (Or.inl rfl) (Or.inl rfl))


/-- The central absorption identity: merging on top of a base that already
ends in `F` absorbs a later re-merge of `F` below fresh layers.  This is
what makes `reload` idempotent on `mergedDict` despite `specificDict`
not being idempotent under `trust = dict`. -/
theorem mergeO_G3_aux : ∀ (n : Nat) (Z F Y O : JObj),
    sizeO Z + sizeO F + sizeO Y + sizeO O ≤ n →
    wfO Z = true → wfO F = true → wfO Y = true → wfO O = true →
    mergeO (mergeO Z F) (mergeO (mergeO F Y) O)
      = mergeO (mergeO Z F) (mergeO Y O) := by
  intro n
  induction n using Nat.strong_induction_on with
  | _ n ih =>
    intro Z F Y O hsz hZ hF hY hO
    have hZF : wfO (mergeO Z F) = true := wfO_mergeO _ _ hZ hF
    have hFY : wfO (mergeO F Y) = true := wfO_mergeO _ _ hF hY
    have hFYO : wfO (mergeO (mergeO F Y) O) = true := wfO_mergeO _ _ hFY hO
    have hYO : wfO (mergeO Y O) = true := wfO_mergeO _ _ hY hO
    apply JObj.ext_of
    · exact keys_nodup_of_wf _ (wfO_mergeO _ _ hZF hFYO)
    · -- key sequences agree
      rw [keys_mergeO (mergeO Z F) (mergeO (mergeO F Y) O) hFYO,
        keys_mergeO (mergeO Z F) (mergeO Y O) hYO,
        keys_mergeO (mergeO F Y) O hO,
        keys_mergeO Y O hO,
        keys_mergeO F Y hY]
      congr 1
      simp only [List.filter_append]
      have hA : List.filter (fun s => !(mergeO Z F).hasKey s) F.keys = [] := by
        apply filter_eq_nil_of
        intro s hs
        rw [hasKey_mergeO Z F hF s]
        rw [mem_keys_iff_hasKey] at hs
        simp [hs]
      have hB : List.filter (fun s => !(mergeO Z F).hasKey s)
            (List.filter (fun s => !F.hasKey s) Y.keys)
          = List.filter (fun s => !(mergeO Z F).hasKey s) Y.keys := by
        rw [filter_filter_eq]
        apply List.filter_congr
        intro s _
        rw [hasKey_mergeO Z F hF s]
        cases hzs : Z.hasKey s <;> cases hfs : F.hasKey s <;> simp
      have hC : List.filter (fun s => !(mergeO Z F).hasKey s)
            (List.filter (fun s => !(mergeO F Y).hasKey s) O.keys)
          = List.filter (fun s => !(mergeO Z F).hasKey s)
            (List.filter (fun s => !Y.hasKey s) O.keys) := by
        rw [filter_filter_eq, filter_filter_eq]
        apply List.filter_congr
        intro s _
        rw [hasKey_mergeO Z F hF s, hasKey_mergeO F Y hY s]
        cases hzs : Z.hasKey s <;> cases hfs : F.hasKey s <;>
          cases hys : Y.hasKey s <;> simp
      rw [hA, hB, hC]
      simp
    · -- pointwise lookups agree
      intro k
      rw [get?_mergeO (mergeO Z F) (mergeO (mergeO F Y) O) hFYO k,
        get?_mergeO (mergeO Z F) (mergeO Y O) hYO k,
        get?_mergeO (mergeO F Y) O hO k,
        get?_mergeO Y O hO k,
        get?_mergeO F Y hY k,
        get?_mergeO Z F hF k]
      apply cmb_step
      · exact fun v hv => wfV_get? F k v hF hv
      · exact fun v hv => wfV_get? Y k v hY hv
      · exact fun v hv => wfV_get? O k v hO hv
      · intro fo Y' O' hf hY' hO'
        have hfo : wfO fo = true := by
          have := wfV_get? F k _ hF hf
          simpa [wfV] using this
        have hszf : sizeO fo < sizeO F := by
          have := sizeV_get? F k _ hf
          simp only [sizeV] at this
          omega
        have hszz : sizeO (objD (Z.get? k)) ≤ sizeO Z :=
          sizeO_objD_le (Z.get? k) Z k rfl
        have hwz : wfO (objD (Z.get? k)) = true :=
          wfO_objD _ (fun v hv => wfV_get? Z k v hZ hv)
        have hszY : sizeO Y' ≤ sizeO Y := by
          rcases hY' with h | h
          · subst h; exact sizeO_objD_le (Y.get? k) Y k rfl
          · subst h; simp [sizeO]
        have hszO : sizeO O' ≤ sizeO O := by
          rcases hO' with h | h
          · subst h; exact sizeO_objD_le (O.get? k) O k rfl
          · subst h; simp [sizeO]
        have hwY : wfO Y' = true := by
          rcases hY' with h | h
          · subst h; exact wfO_objD _ (fun v hv => wfV_get? Y k v hY hv)
          · subst h; rfl
        have hwO : wfO O' = true := by
          rcases hO' with h | h
          · subst h; exact wfO_objD _ (fun v hv => wfV_get? O k v hO hv)
          · subst h; rfl
        exact ih (sizeO (objD (Z.get? k)) + sizeO fo + sizeO Y' + sizeO O')
          (by omega) _ fo Y' O' (le_refl _) hwz hfo hwY hwO

/-- G3 at the natural sizes. -/
theorem mergeO_G3 (Z F Y O : JObj)
    (hZ : wfO Z = true) (hF : wfO F = true) (hY : wfO Y = true)
    (hO : wfO O = true) :
    mergeO (mergeO Z F) (mergeO (mergeO F Y) O)
      = mergeO (mergeO Z F) (mergeO Y O) :=
  mergeO_G3_aux (sizeO Z + sizeO F + sizeO Y + sizeO O) Z F Y O (le_refl _)
    hZ hF hY hO

/-- Right absorption: re-merging the same override is a no-op. -/
theorem mergeO_absorb_right (W U : JObj) (hW : wfO W = true)
    (hU : wfO U = true) :
    mergeO (mergeO W U) U = mergeO W U := by
  have h := mergeO_G3 W U .nil .nil hW hU rfl rfl
  simpa [mergeO_nil_right] using h


/-!
## The configuration store (`src/engine/config.py`)

`Config._update` merges four sources: the caller's overrides `O`
(`config_dict`), the previous in-RAM `specificDict` `S`, the scope's own
backing file contents `F`, and the global `config.json` contents `G`.
File reads are modelled by passing the parsed contents in (an unreadable
file is the empty object, per `_safe_read_json`).
-/

/-- The trust order parameter of `reload`/`_update`. -/
inductive Trust where
  | file
  | dict
  deriving DecidableEq

/-- The `nested` attribute: `"." in key` at construction (a bool);
`reload_for_module` may replace it with a parent scope key (a string,
modelled by its non-empty segment list, which is always truthy). -/
inductive Nested where
  | flag (b : Bool)
  | key (s : List String)
  deriving DecidableEq

/-- Python truthiness of the `nested` attribute. -/
def Nested.truthy : Nested → Bool
  | .flag b => b
  | .key _ => true

/-- A config scope's in-RAM state. -/
structure Config where
  key : List String
  nested : Nested
  specificDict : JObj
  mergedDict : JObj
  deriving DecidableEq

/-- `Config._update`, ported statement by statement.  `deepcopy` is the
identity on pure values.  Returns `none` exactly when the final
`dict_path` extraction fails (`ConfigError`). -/
def updateConfig (cfg : Config) (trust : Trust) (configDict : JObj)
    (mergedFile specificFile : JObj) : Option Config :=
  let updateCD := configDict
  let specificCD : JObj :=
    match trust with
    | .file => .nil          -- "When trusting file, start fresh"
    | .dict => cfg.specificDict
  let u := nestDict updateCD cfg.key
  let s := nestDict specificCD cfg.key
  let sf :=
    if cfg.nested.truthy then
      nestDict (dictPathObj specificFile cfg.key) cfg.key
    else
      nestDict specificFile cfg.key
  let nmf : JObj :=
    match cfg.nested with
    | .key ns => nestDict (dictPathObj mergedFile (ns ++ cfg.key)) cfg.key
    | _ => .nil
  let mf := nestDict (dictPathObj mergedFile cfg.key) cfg.key
  let mf2 := deepMergeDicts [mf, nmf, sf]
  let sm : JObj × JObj :=
    match trust with
    | .file =>
      let spec := deepMergeDicts [u, s, sf]
      (spec, deepMergeDicts [spec, mf2])
    | .dict =>
      let spec := deepMergeDicts [sf, s, u]
      (spec, deepMergeDicts [mf2, spec])
  match dictPath sm.1 cfg.key, dictPath sm.2 cfg.key with
  | some (.obj so), some (.obj mo) =>
    some { cfg with specificDict := so, mergedDict := mo }
  | _, _ => none

/-- `Config.reload` forwards to `_update`. -/
def reloadConfig (cfg : Config) (trust : Trust) (configDict : JObj)
    (mergedFile specificFile : JObj) : Option Config :=
  updateConfig cfg trust configDict mergedFile specificFile

/-- `Config.get`: a (deep-copied) lookup in the merged view.
`key = []` models the empty-string key returning the whole dict. -/
def configGet (cfg : Config) (key : List String) : Option JValue :=
  match key with
  | [] => some (.obj cfg.mergedDict)
  | _ => dictPath cfg.mergedDict key

/-- `Config.dump(target="specific")` for the scope's own backing file:
the written file is the deep merge of the previous contents under the
current `specificDict` (`AppPath.write_json` with `merge=True`).
A nested scope has no own file (`ConfigError`). -/
def dumpToOwnFile (cfg : Config) (oldFile : JObj) : Option JObj :=
  if cfg.nested.truthy then none
  else some (mergeO oldFile cfg.specificDict)

-- Nesting / extraction lemmas

theorem nest_merge (a b : JObj) : ∀ (p : List String),
    mergeO (nestDict a p) (nestDict b p) = nestDict (mergeO a b) p
  | [] => rfl
  | k :: rest => by
    show setPlain (.cons k (.obj (nestDict a rest)) .nil) k
        (mergedVal ((JObj.cons k (.obj (nestDict a rest)) .nil).get? k)
          (.obj (nestDict b rest))) = _
    rw [show (JObj.cons k (.obj (nestDict a rest)) .nil).get? k
        = some (.obj (nestDict a rest)) by simp [JObj.get?]]
    show setPlain (.cons k (.obj (nestDict a rest)) .nil) k
        (.obj (mergeO (nestDict a rest) (nestDict b rest))) = _
    rw [nest_merge a b rest]
    simp only [setPlain, if_pos rfl]
    rfl

theorem dictPath_nest (d : JObj) (p : List String) :
    dictPath (nestDict d p) p = some (.obj d) := by
  induction p with
  | nil => rfl
  | cons k rest ih =>
    cases rest with
    | nil => simp [nestDict, dictPath, JObj.get?]
    | cons k2 r2 =>
      simp only [nestDict, dictPath, JObj.get?, if_pos rfl]
      exact ih

theorem wfO_nestDict (d : JObj) (p : List String) (hd : wfO d = true) :
    wfO (nestDict d p) = true := by
  induction p with
  | nil => exact hd
  | cons k rest ih => simp [nestDict, wfO, JObj.hasKey, JObj.get?, wfV, ih]

theorem wfV_dictPath (d : JObj) (p : List String) (v : JValue)
    (hd : wfO d = true) (h : dictPath d p = some v) : wfV v = true := by
  induction p generalizing d with
  | nil =>
    simp only [dictPath] at h
    cases h
    simpa [wfV] using hd
  | cons k rest ih =>
    simp only [dictPath] at h
    cases hg : d.get? k with
    | none => rw [hg] at h; exact absurd h (by simp)
    | some w =>
      rw [hg] at h
      cases rest with
      | nil =>
        cases h
        exact wfV_get? d k v hd hg
      | cons k2 r2 =>
        cases w with
        | obj o =>
          have hwo : wfO o = true := by
            have := wfV_get? d k _ hd hg
            simpa [wfV] using this
          exact ih o hwo h
        | null => exact absurd h (by simp)
        | bool b => exact absurd h (by simp)
        | num n => exact absurd h (by simp)
        | str sx => exact absurd h (by simp)
        | arr l => exact absurd h (by simp)

theorem wfO_dictPathObj (d : JObj) (p : List String) (hd : wfO d = true) :
    wfO (dictPathObj d p) = true := by
  unfold dictPathObj
  cases hp : dictPath d p with
  | none => rfl
  | some v =>
    cases v with
    | obj o =>
      have := wfV_dictPath d p _ hd hp
      simpa [wfV] using this
    | null => rfl
    | bool b => rfl
    | num n => rfl
    | str sx => rfl
    | arr l => rfl

-- Un-nested characterization of `_update`

/-- The effective own-file source after subtree extraction. -/
def srcF (cfg : Config) (specificFile : JObj) : JObj :=
  if cfg.nested.truthy then dictPathObj specificFile cfg.key else specificFile

/-- The extra parent-subtree source (only for module-bound scopes). -/
def srcN (cfg : Config) (mergedFile : JObj) : JObj :=
  match cfg.nested with
  | .key ns => dictPathObj mergedFile (ns ++ cfg.key)
  | _ => .nil

/-- The global-file subtree addressed by the scope key. -/
def srcG (cfg : Config) (mergedFile : JObj) : JObj :=
  dictPathObj mergedFile cfg.key

/-- The combined file-side base: global subtree, then parent subtree,
then the scope's own file, later winning. -/
def fileBase (cfg : Config) (mergedFile specificFile : JObj) : JObj :=
  mergeO (mergeO (srcG cfg mergedFile) (srcN cfg mergedFile))
    (srcF cfg specificFile)

/-- The new `specificDict` produced by `_update`. -/
def updSpec (cfg : Config) (trust : Trust) (configDict specificFile : JObj) :
    JObj :=
  match trust with
  | .file => mergeO configDict (srcF cfg specificFile)
  | .dict => mergeO (mergeO (srcF cfg specificFile) cfg.specificDict) configDict

/-- The new `mergedDict` produced by `_update`. -/
def updMerged (cfg : Config) (trust : Trust)
    (configDict mergedFile specificFile : JObj) : JObj :=
  match trust with
  | .file => mergeO (updSpec cfg trust configDict specificFile)
      (fileBase cfg mergedFile specificFile)
  | .dict => mergeO (fileBase cfg mergedFile specificFile)
      (updSpec cfg trust configDict specificFile)

theorem updateConfig_eq (cfg : Config) (trust : Trust)
    (configDict mergedFile specificFile : JObj) :
    updateConfig cfg trust configDict mergedFile specificFile = some
      { cfg with
        specificDict := updSpec cfg trust configDict specificFile,
        mergedDict := updMerged cfg trust configDict mergedFile specificFile } := by
  cases trust with
  | file =>
    simp only [updateConfig, deepMergeDicts, List.foldl]
    cases hn : cfg.nested with
    | flag b =>
      cases b with
      | false =>
        simp only [Nested.truthy, mergeO_nil_right, updSpec, updMerged,
          fileBase, srcF, srcG, srcN, hn]
        simp [nest_merge, dictPath_nest, mergeO_nil_right]
      | true =>
        simp only [Nested.truthy, mergeO_nil_right, updSpec, updMerged,
          fileBase, srcF, srcG, srcN, hn]
        simp [nest_merge, dictPath_nest, mergeO_nil_right]
    | key ns =>
      simp only [Nested.truthy, mergeO_nil_right, updSpec, updMerged,
        fileBase, srcF, srcG, srcN, hn]
      simp [nest_merge, dictPath_nest, mergeO_nil_right]
  | dict =>
    simp only [updateConfig, deepMergeDicts, List.foldl]
    cases hn : cfg.nested with
    | flag b =>
      cases b with
      | false =>
        simp only [Nested.truthy, mergeO_nil_right, updSpec, updMerged,
          fileBase, srcF, srcG, srcN, hn]
        simp [nest_merge, dictPath_nest, mergeO_nil_right]
      | true =>
        simp only [Nested.truthy, mergeO_nil_right, updSpec, updMerged,
          fileBase, srcF, srcG, srcN, hn]
        simp [nest_merge, dictPath_nest, mergeO_nil_right]
    | key ns =>
      simp only [Nested.truthy, mergeO_nil_right, updSpec, updMerged,
        fileBase, srcF, srcG, srcN, hn]
      simp [nest_merge, dictPath_nest, mergeO_nil_right]


-- Well-formedness of the characterized outputs

theorem wfO_srcF (cfg : Config) (F : JObj) (hF : wfO F = true) :
    wfO (srcF cfg F) = true := by
  unfold srcF
  by_cases h : cfg.nested.truthy <;> simp [h, wfO_dictPathObj _ _ hF, hF]

theorem wfO_srcN (cfg : Config) (G : JObj) (hG : wfO G = true) :
    wfO (srcN cfg G) = true := by
  unfold srcN
  cases cfg.nested <;> simp [wfO_dictPathObj _ _ hG, wfO]

theorem wfO_srcG (cfg : Config) (G : JObj) (hG : wfO G = true) :
    wfO (srcG cfg G) = true :=
  wfO_dictPathObj _ _ hG

/-!
## Claims C1-C3
-/

/-- C1 (amended): for every config scope, `_update` with `trust = file`
discards the previous in-RAM `specificDict` entirely — the new
`specificDict` is the deep merge of caller overrides `O` under the own-file
contents `F` (file wins over overrides; the prior `specificDict` never
contributes) — and `mergedDict` overlays the combined file base
`merge(merge(G-subtree, parent-subtree), F)` on top of the new
`specificDict` (the file side wins).  With `trust = dict` the precedence
low→high is `F`, `S`, `O` (caller overrides win) and `mergedDict` overlays
the new `specificDict` on top of the file base (the dict side wins).
At the spec's example `O={a:1}`, `S={a:2}`, `F={a:3}` the effective value
is `a=3` for `trust=file` and `a=1` for `trust=dict`. -/
theorem c1_merge_precedence_amended (cfg : Config) (O G F : JObj) :
    (updateConfig cfg .file O G F = some { cfg with
        specificDict := mergeO O (srcF cfg F),
        mergedDict := mergeO (mergeO O (srcF cfg F))
          (mergeO (mergeO (srcG cfg G) (srcN cfg G)) (srcF cfg F)) })
    ∧ (updateConfig cfg .dict O G F = some { cfg with
        specificDict := mergeO (mergeO (srcF cfg F) cfg.specificDict) O,
        mergedDict := mergeO (mergeO (mergeO (srcG cfg G) (srcN cfg G))
            (srcF cfg F))
          (mergeO (mergeO (srcF cfg F) cfg.specificDict) O) }) :=
  ⟨updateConfig_eq cfg .file O G F, updateConfig_eq cfg .dict O G F⟩

/-- C1 (claim as stated is false): with `trust = file` the previous in-RAM
`specificDict` `S = {a: 2}` does NOT take precedence over the caller
override `O = {a: 1}` when the backing file lacks the key: the resulting
`specificDict` has `a = 1`, not `a = 2` (S is discarded). Moreover, with
`G`'s subtree `{a: 4}` and `S`, `F` empty, `mergedDict` has `a = 4`
(the global-file side wins over `specificDict` under `trust = file`),
not the claimed `specificDict`-over-`G` value `a = 1`. -/
theorem c1_merge_precedence_counterexample :
    ((updateConfig ⟨["k"], .flag false, JObj.ofList [("a", .num 2)], .nil⟩
        .file (JObj.ofList [("a", .num 1)]) .nil .nil).map
      (fun c => c.specificDict.get? "a") = some (some (.num 1)))
    ∧ ¬ ((updateConfig ⟨["k"], .flag false, JObj.ofList [("a", .num 2)], .nil⟩
        .file (JObj.ofList [("a", .num 1)]) .nil .nil).map
      (fun c => c.specificDict.get? "a") = some (some (.num 2)))
    ∧ ((updateConfig ⟨["k"], .flag false, .nil, .nil⟩
        .file (JObj.ofList [("a", .num 1)])
        (JObj.ofList [("k", .obj (JObj.ofList [("a", .num 4)]))]) .nil).map
      (fun c => c.mergedDict.get? "a") = some (some (.num 4))) := by
  decide

/-- The spec's own concrete merge-precedence example, evaluated on the
model: `O={a:1}`, `S={a:2}`, `F={a:3}`, `G={k:{a:4}}` gives `a=3` under
`trust=file` and `a=1` under `trust=dict`. -/
theorem c1_spec_example_eval :
    ((updateConfig ⟨["k"], .flag false, JObj.ofList [("a", .num 2)], .nil⟩
        .file (JObj.ofList [("a", .num 1)])
        (JObj.ofList [("k", .obj (JObj.ofList [("a", .num 4)]))])
        (JObj.ofList [("a", .num 3)])).map
      (fun c => c.specificDict.get? "a") = some (some (.num 3)))
    ∧ ((updateConfig ⟨["k"], .flag false, JObj.ofList [("a", .num 2)], .nil⟩
        .dict (JObj.ofList [("a", .num 1)])
        (JObj.ofList [("k", .obj (JObj.ofList [("a", .num 4)]))])
        (JObj.ofList [("a", .num 3)])).map
      (fun c => c.specificDict.get? "a") = some (some (.num 1))) := by
  decide

/-- C2 (amended): for a non-nested scope, `dump` writes the deep merge of
the prior file contents under `specificDict`, and `reload` (trust=file,
no overrides) then makes `specificDict` exactly that merge.  The round
trip therefore reproduces `specificDict` exactly when the prior file
contents are absorbed by it — in particular when the prior file was
empty — but not in general. -/
theorem c2_dump_reload_amended (cfg : Config) (oldFile G : JObj)
    (hnn : cfg.nested = Nested.flag false)
    (hS : wfO cfg.specificDict = true) (hold : wfO oldFile = true) :
    ∃ newFile cfg',
      dumpToOwnFile cfg oldFile = some newFile ∧
      reloadConfig cfg .file .nil G newFile = some cfg' ∧
      cfg'.specificDict = mergeO oldFile cfg.specificDict ∧
      (oldFile = .nil → cfg'.specificDict = cfg.specificDict) := by
  have hwn : wfO (mergeO oldFile cfg.specificDict) = true :=
    wfO_mergeO _ _ hold hS
  refine ⟨mergeO oldFile cfg.specificDict,
    { cfg with
      specificDict := updSpec cfg .file .nil (mergeO oldFile cfg.specificDict),
      mergedDict := updMerged cfg .file .nil G
        (mergeO oldFile cfg.specificDict) }, ?_, ?_, ?_, ?_⟩
  · simp [dumpToOwnFile, hnn, Nested.truthy]
  · exact updateConfig_eq cfg .file .nil G (mergeO oldFile cfg.specificDict)
  · show updSpec cfg .file .nil (mergeO oldFile cfg.specificDict)
        = mergeO oldFile cfg.specificDict
    simp only [updSpec, srcF, hnn, Nested.truthy, Bool.false_eq_true,
      if_neg, ite_false]
    exact mergeO_nil_left _ hwn
  · intro h0
    subst h0
    show updSpec cfg .file .nil (mergeO .nil cfg.specificDict)
        = cfg.specificDict
    rw [mergeO_nil_left _ hS]
    simp only [updSpec, srcF, hnn, Nested.truthy, Bool.false_eq_true,
      if_neg, ite_false]
    exact mergeO_nil_left _ hS

/-- Witness for C2 (amended) at a concrete scope. -/
theorem c2_dump_reload_amended_witness :
    (⟨["k"], .flag false, JObj.ofList [("a", .num 1)], .nil⟩ : Config).nested
        = Nested.flag false
    ∧ ∃ newFile cfg',
      dumpToOwnFile ⟨["k"], .flag false, JObj.ofList [("a", .num 1)], .nil⟩
          (JObj.ofList [("b", .num 2)]) = some newFile ∧
      reloadConfig ⟨["k"], .flag false, JObj.ofList [("a", .num 1)], .nil⟩
          .file .nil .nil newFile = some cfg' ∧
      cfg'.specificDict = mergeO (JObj.ofList [("b", .num 2)])
          (JObj.ofList [("a", .num 1)]) ∧
      (JObj.ofList [("b", .num 2)] = .nil →
        cfg'.specificDict = JObj.ofList [("a", .num 1)]) :=
  ⟨rfl, c2_dump_reload_amended
    ⟨["k"], .flag false, JObj.ofList [("a", .num 1)], .nil⟩
    (JObj.ofList [("b", .num 2)]) .nil rfl (by decide) (by decide)⟩

/-- C2 (claim as stated is false): for the scope `"k"` with an empty
`specificDict` whose backing file already contains `{b: 1}`, `dump`
followed by `reload` yields `specificDict = {b: 1}`, not the original
empty dict: the freshly written file is merged with its prior contents,
so the round trip does not reproduce `specificDict` exactly. -/
theorem c2_dump_reload_counterexample :
    (dumpToOwnFile ⟨["k"], .flag false, .nil, .nil⟩ (JObj.ofList [("b", .num 1)])
      = some (JObj.ofList [("b", .num 1)]))
    ∧ ((reloadConfig ⟨["k"], .flag false, .nil, .nil⟩ .file .nil .nil
        (JObj.ofList [("b", .num 1)])).map Config.specificDict
      = some (JObj.ofList [("b", .num 1)]))
    ∧ JObj.ofList [("b", .num 1)] ≠ JObj.nil := by
  decide

/-- C3 (confirmed): reloading a scope twice in a row with identical
overrides, trust order and unchanged file contents yields an identical
`mergedDict` after the second call as after the first — for every scope
state, both trust orders, and arbitrary well-formed inputs.
(Under `trust = dict` the intermediate `specificDict` can differ between
the two calls; `mergedDict` nevertheless agrees, by the absorption
identity `mergeO_G3`.) -/
theorem c3_reload_idempotent_mergedDict
    (cfg : Config) (trust : Trust) (overrides mergedFile specificFile : JObj)
    (hS : wfO cfg.specificDict = true) (hO : wfO overrides = true)
    (hG : wfO mergedFile = true) (hF : wfO specificFile = true)
    (cfg₁ cfg₂ : Config)
    (h1 : reloadConfig cfg trust overrides mergedFile specificFile = some cfg₁)
    (h2 : reloadConfig cfg₁ trust overrides mergedFile specificFile = some cfg₂) :
    cfg₂.mergedDict = cfg₁.mergedDict := by
  rw [reloadConfig, updateConfig_eq] at h1
  cases Option.some.inj h1
  rw [reloadConfig, updateConfig_eq] at h2
  cases Option.some.inj h2
  cases trust with
  | file => rfl
  | dict =>
    have hF' : wfO (srcF cfg specificFile) = true := wfO_srcF cfg specificFile hF
    have hGN : wfO (mergeO (srcG cfg mergedFile) (srcN cfg mergedFile)) = true :=
      wfO_mergeO _ _ (wfO_srcG cfg mergedFile hG) (wfO_srcN cfg mergedFile hG)
    have hFS : wfO (mergeO (srcF cfg specificFile) cfg.specificDict) = true :=
      wfO_mergeO _ _ hF' hS
    have hspec1 : wfO (mergeO (mergeO (srcF cfg specificFile)
        cfg.specificDict) overrides) = true := wfO_mergeO _ _ hFS hO
    show mergeO (mergeO (mergeO (srcG cfg mergedFile) (srcN cfg mergedFile))
          (srcF cfg specificFile))
        (mergeO (mergeO (srcF cfg specificFile)
          (mergeO (mergeO (srcF cfg specificFile) cfg.specificDict) overrides))
          overrides)
      = mergeO (mergeO (mergeO (srcG cfg mergedFile) (srcN cfg mergedFile))
          (srcF cfg specificFile))
        (mergeO (mergeO (srcF cfg specificFile) cfg.specificDict) overrides)
    rw [mergeO_G3 (mergeO (srcG cfg mergedFile) (srcN cfg mergedFile))
      (srcF cfg specificFile)
      (mergeO (mergeO (srcF cfg specificFile) cfg.specificDict) overrides)
      overrides hGN hF' hspec1 hO]
    rw [mergeO_absorb_right _ _ hFS hO]


/-- Witness for C3 at a concrete scope where the two calls produce
different `specificDict`s but identical `mergedDict`s. -/
theorem c3_reload_idempotent_witness :
    ∃ c1 c2,
      reloadConfig ⟨["k"], .flag false, JObj.ofList [("x", .num 2)], .nil⟩
          .dict (JObj.ofList [("x", .obj (JObj.ofList [("q", .num 3)]))]) .nil
          (JObj.ofList [("x", .obj (JObj.ofList [("p", .num 1)]))]) = some c1 ∧
      reloadConfig c1
          .dict (JObj.ofList [("x", .obj (JObj.ofList [("q", .num 3)]))]) .nil
          (JObj.ofList [("x", .obj (JObj.ofList [("p", .num 1)]))]) = some c2 ∧
      c2.mergedDict = c1.mergedDict ∧ c2.specificDict ≠ c1.specificDict := by
  refine ⟨⟨["k"], .flag false,
      JObj.ofList [("x", .obj (JObj.ofList [("q", .num 3)]))],
      JObj.ofList [("x", .obj (JObj.ofList [("p", .num 1), ("q", .num 3)]))]⟩,
    ⟨["k"], .flag false,
      JObj.ofList [("x", .obj (JObj.ofList [("p", .num 1), ("q", .num 3)]))],
      JObj.ofList [("x", .obj (JObj.ofList [("p", .num 1), ("q", .num 3)]))]⟩,
    ?_, ?_, ?_, ?_⟩
  · decide
  · decide
  · exact c3_reload_idempotent_mergedDict
      ⟨["k"], .flag false, JObj.ofList [("x", .num 2)], .nil⟩ .dict
      (JObj.ofList [("x", .obj (JObj.ofList [("q", .num 3)]))]) .nil
      (JObj.ofList [("x", .obj (JObj.ofList [("p", .num 1)]))])
      (by decide) (by decide) (by decide) (by decide) _ _ (by decide) (by decide)
  · decide


/-!
## The CLI engine (`src/engine/cli.py`)

Argument values are Python-level values (`PyVal`); coercion functions
(`type`) are modelled by `CType`.  `shlex.split` on prompt input is
modelled as whitespace splitting (quoting is irrelevant to the claims).
-/

/-- A coerced argument value. -/
inductive PyVal where
  | str (s : String)
  | bool (b : Bool)
  | path (isDir : Bool) (p : String)
  deriving DecidableEq

/-- A declared default: a scalar for arity `one`, a list for `many`. -/
inductive DefVal where
  | one (v : PyVal)
  | many (vs : List PyVal)
  deriving DecidableEq

/-- What `CliArgument._get_value` returns: Python `None`, a scalar, or
the list of values. -/
inductive GotValue where
  | noneV
  | one (v : PyVal)
  | many (vs : List PyVal)
  deriving DecidableEq

/-- The `type` attribute of an argument. -/
inductive CType where
  | noneT   -- type=None: raw string
  | strT    -- str
  | boolT   -- bool
  | fpathT  -- AppPath.fpath
  | dpathT  -- AppPath.dpath
  | appPathT  -- AppPath.AppPath (rejected by the prompter)
  deriving DecidableEq

/-- `accepted_values`: absent, a list, or a regex (modelled abstractly as
a predicate). -/
inductive Accepted where
  | noneA
  | list (l : List String)
  | pattern (f : String → Bool)

/-- `expect` arity. -/
inductive Expect where
  | one
  | many
  deriving DecidableEq

/-- The mutable state and declaration of a `CliArgument`. -/
structure CliArgument where
  long : String
  short : Option String := none
  default : Option DefVal := none
  expect : Expect := .one
  ctype : CType := .noneT
  required : Bool := false
  acceptedValues : Accepted := .noneA
  values : List PyVal := []
  useDefault : Bool := false
  configDefault : Option DefVal := none

/-- The resolution-request variants raised by validation
(`CliMissingRequest`, `CliInvalidRequest`, `CliConfirmRequest`); the
source has NO `TooMany` variant. -/
inductive CliRequest where
  | missing
  | invalid (values : List String)
  | confirm
  deriving DecidableEq

/-- Failures escaping the prompter loop. -/
inductive CliExc where
  | help              -- CliHelpRequest ("You are doing it wrong")
  | cliError          -- CliError (silent failure, AppPath type, ...)
  | typeErr           -- the broken CliArgumentRequest(self, "...") call
  deriving DecidableEq

/-- Validation outcome: a resolution request, a coercion failure, or the
coerced values. -/
inductive VResult where
  | req (r : CliRequest)
  | typeErr
  | ok (values : List PyVal)
  deriving DecidableEq

/-- Kernel-evaluable character-list versions of the string primitives
(`String.startsWith`, `String.lower`, `String.strip`, `shlex.split`). -/
def leadChars : List Char → List Char → Bool
  | [], _ => true
  | _ :: _, [] => false
  | a :: as, b :: bs => a == b && leadChars as bs

/-- `s.startswith(pre)`. -/
def strLead (s pre : String) : Bool := leadChars pre.data s.data

/-- `s.lower()`. -/
def strLower (s : String) : String := String.mk (s.data.map Char.toLower)

/-- Python whitespace for `str.strip()`. -/
def isWs (c : Char) : Bool :=
  c == ' ' || c == '\t' || c == '\n' || c == '\r' || c == '\x0b' || c == '\x0c'

/-- `s.strip()`. -/
def strStrip (s : String) : String :=
  String.mk (((s.data.dropWhile isWs).reverse.dropWhile isWs).reverse)

/-- `shlex.split` restricted to whitespace separation (quoting is not
exercised by the claims). -/
def splitWsAux : List Char → List Char → List String
  | acc, [] => if acc.isEmpty then [] else [String.mk acc.reverse]
  | acc, c :: rest =>
    if isWs c then
      if acc.isEmpty then splitWsAux [] rest
      else String.mk acc.reverse :: splitWsAux [] rest
    else splitWsAux (c :: acc) rest

/-- Split a string on whitespace runs. -/
def splitWs (s : String) : List String := splitWsAux [] s.data

/-- `CliArgument._parse_bool_value`. -/
def parseBoolValue (s : String) : Option Bool :=
  if strLower s = "y" ∨ strLower s = "yes" ∨ strLower s = "true" then some true
  else if strLower s = "n" ∨ strLower s = "no" ∨ strLower s = "false" then
    some false
  else none

/-- `CliArgument._parse_raw_value`. -/
def parseRawValue (ctype : CType) (raw : String) : Except Unit PyVal :=
  match ctype with
  | .boolT =>
    match parseBoolValue raw with
    | some b => .ok (.bool b)
    | none => .error ()          -- raises (a broken CliArgumentRequest call)
  | .fpathT => .ok (.path false raw)
  | .dpathT => .ok (.path true raw)
  | .appPathT => .ok (.path false raw)
  | _ => .ok (.str raw)

/-- `CliArgument._invalid_raw_values`. -/
def invalidRawValues (arg : CliArgument) (raws : List String) : List String :=
  match arg.acceptedValues with
  | .list l => raws.filter (fun v => !(l.contains v))
  | .pattern f => raws.filter (fun v => !(f v))
  | .noneA => []

/-- Coerce a list of raw tokens. -/
def coerceAll (ctype : CType) : List String → Except Unit (List PyVal)
  | [] => .ok []
  | r :: rest => do
    let v ← parseRawValue ctype r
    let vs ← coerceAll ctype rest
    .ok (v :: vs)

/-- `CliArgument._validate_raw_values` (returning the values that are
also stored into `self.values` when `store=True`). -/
def validateRawValues (arg : CliArgument) (rawValues : List String) :
    VResult :=
  if arg.expect = .one ∧ rawValues.length > 1 then
    .req (.invalid rawValues)
  else if rawValues.length = 0 then
    if arg.ctype = .boolT then
      match coerceAll arg.ctype ["y"] with
      | .ok vs => .ok vs
      | .error _ => .typeErr
    else if arg.required ∧ arg.default = none then
      .req .missing
    else
      .ok []
  else if (invalidRawValues arg rawValues).length > 0 then
    .req (.invalid rawValues)
  else
    match coerceAll arg.ctype rawValues with
    | .ok vs => .ok vs
    | .error _ => .typeErr

/-- `CliArgumentParser.parse_flags`, pass 1 (single left-to-right pass,
equivalent to the source's `consume_flag` loop): the first token and every
dash-prefixed token start a flag; every other token is a value of the
current flag ("take until next dash-prefixed token"). -/
def consumeFlagsAux (cur : String × List String) :
    List String → List (String × List String)
  | [] => [(cur.1, cur.2.reverse)]
  | t :: rest =>
    if strLead t "-" then
      (cur.1, cur.2.reverse) :: consumeFlagsAux (t, []) rest
    else
      consumeFlagsAux (cur.1, t :: cur.2) rest

/-- `consume_flag` applied until the token list is exhausted. -/
def consumeFlags : List String → List (String × List String)
  | [] => []
  | a :: rest => consumeFlagsAux (a, []) rest

/-- Replace-or-append on an association list (Python dict semantics). -/
def setAssoc (acc : List (String × List String)) (k : String)
    (v : List String) : List (String × List String) :=
  match acc with
  | [] => [(k, v)]
  | (k', v') :: tl => if k' = k then (k', v) :: tl else (k', v') :: setAssoc tl k v

/-- `CliArgumentParser.parse_flags`, passes 2-4: split off short flags,
expand combined shorts, map shorts to long names, build `_raw_flags`. -/
def parseFlags (shortMap : List (String × String)) (args : List String) :
    Except Unit (List (String × List String)) := do
  let flags := consumeFlags args
  let shorts := flags.filter (fun f => !(strLead f.1 "--"))
  let combined := shorts.filter (fun f => f.1.length > 2)
  let shorts := shorts.filter (fun f => !(combined.contains f))
  if combined.any (fun f => f.2.length > 0) then
    .error ()    -- "Combinated short flags ... cannot have values."
  else
    -- register combined shorts as single shorts (the `not flag in
    -- short_flags` membership test in the source compares a string against
    -- tuples and is therefore always true: every letter is inserted)
    let shorts := combined.foldl
      (fun acc csf => (csf.1.data.drop 1).foldl
        (fun acc2 c => (String.mk ['-', c], ([] : List String)) :: acc2) acc)
      shorts
    -- rebuild the short flags with long names
    let flags ← shorts.foldlM
      (fun fl sf =>
        match shortMap.lookup sf.1 with
        | none => .error ()   -- "Unknown short flag"
        | some long =>
          .ok ((if fl.contains sf then fl.erase sf else fl) ++ [(long, sf.2)]))
      flags
    -- store raw flags (dict comprehension)
    .ok (flags.foldl (fun acc f => setAssoc acc f.1 f.2) [])

/-!
## Claim C4
-/

instance {ε α : Type} [DecidableEq ε] [DecidableEq α] :
    DecidableEq (Except ε α) := fun a b =>
  match a, b with
  | .error e1, .error e2 =>
    if h : e1 = e2 then .isTrue (by rw [h])
    else .isFalse (fun hh => by cases hh; exact h rfl)
  | .ok v1, .ok v2 =>
    if h : v1 = v2 then .isTrue (by rw [h])
    else .isFalse (fun hh => by cases hh; exact h rfl)
  | .error _, .ok _ => .isFalse (fun hh => by cases hh)
  | .ok _, .error _ => .isFalse (fun hh => by cases hh)

/-- C4 (amended): parsing `--names x y z` captures the raw tokens
`["x","y","z"]`; validating them against arity `many` resolves to the
three values; validating the same tokens against arity `one` raises a
`CliInvalidRequest` carrying the tokens — the code has no separate
`TooMany` request variant (its request type has exactly the variants
Missing, Invalid and ConfirmDefault), so an arity overflow surfaces as
`Invalid`. -/
theorem c4_arity_validation_amended :
    (parseFlags [] ["--names", "x", "y", "z"]
      = .ok [("--names", ["x", "y", "z"])])
    ∧ (validateRawValues { long := "--names", expect := .many, required := true }
        ["x", "y", "z"] = .ok [.str "x", .str "y", .str "z"])
    ∧ (validateRawValues { long := "--names", expect := .one, required := true }
        ["x", "y", "z"] = .req (.invalid ["x", "y", "z"])) := by
  refine ⟨by decide, by decide, by decide⟩

/-- C4 (claim as stated is false): validating the three captured tokens
against the flag declared arity `one` yields the `Invalid` request
variant — not a distinct `TooMany` variant, which does not exist in the
code — so the produced request is exactly `CliInvalidRequest(["x","y","z"])`. -/
theorem c4_arity_validation_counterexample :
    validateRawValues { long := "--names", expect := .one, required := true }
        ["x", "y", "z"] = .req (.invalid ["x", "y", "z"])
    ∧ ∀ r : CliRequest, r = .missing ∨ (∃ vs, r = .invalid vs) ∨ r = .confirm := by
  constructor
  · decide
  · intro r
    cases r with
    | missing => exact Or.inl rfl
    | invalid vs => exact Or.inr (Or.inl ⟨vs, rfl⟩)
    | confirm => exact Or.inr (Or.inr rfl)


/-!
## The prompter (`CLiPrompter.request_value` and the request `solve`s)

Terminal input is modelled as a list of lines; an empty list is end of
input (`EOFError`).  The prompter's rendering calls produce no observable
state for these claims and are omitted.  The result is the resolved value
(or escaping exception), the remaining input lines, and the final value
of the prompter's `requests` attempt counter.
-/

/-- Ambient flags read by the prompter (`--silent`, `--auto-confirm`,
`cli.gui_file_dialogs`, and what the file dialog would return). -/
structure PromptCtx where
  silent : Bool
  autoConfirm : Bool
  guiFileDialogs : Bool
  guiPick : String

/-- `CliArgument._reset`. -/
def CliArgument.resetA (arg : CliArgument) : CliArgument :=
  { arg with values := [], useDefault := false }

/-- Convert a stored default to a `_get_value` result. -/
def defToGot : Option DefVal → GotValue
  | none => .noneV
  | some (.one v) => .one v
  | some (.many vs) => .many vs

/-- `CliArgument._get_value`: the default (config default first) when
`use_default` is set, otherwise the stored values. -/
def getValueA (arg : CliArgument) : GotValue :=
  if arg.useDefault then
    match arg.configDefault with
    | some d => defToGot (some d)
    | none => defToGot arg.default
  else
    match arg.values with
    | [] => .noneV
    | v :: _ =>
      match arg.expect with
      | .one => .one v
      | .many => .many arg.values

/-- `CliArgument._parse_raw_input` (shlex modelled as whitespace split). -/
def parseRawInput (expect : Expect) : Option String → List String
  | none => []
  | some r =>
    if r = "" then []
    else match expect with
      | .one => [r]
      | .many => splitWs r

/-- `prepare_prompter` sets `allow_default` from the request kind:
only `ConfirmDefault` allows the empty-input default. -/
def reqAllowsDefault : CliRequest → Bool
  | .confirm => true
  | _ => false

/-- The prompter's overall result: outcome, remaining terminal input,
final `requests` counter. -/
abbrev PromptResult := Except CliExc GotValue × List String × Nat

/-- Reading one value: the GUI file dialog (when enabled for path-typed
arguments and not cancelled) or one terminal line (`input().strip()`;
an exhausted input list is `EOFError`).  Returns the entered value and
the remaining terminal lines. -/
def readInput (ctx : PromptCtx) (arg : CliArgument) (inputs : List String) :
    Option String × List String :=
  if (arg.ctype = .fpathT ∨ arg.ctype = .dpathT) ∧ ctx.guiFileDialogs
      ∧ ctx.guiPick ≠ "" then
    (some ctx.guiPick, inputs)
  else
    match inputs with
    | [] => (if arg.useDefault then none else some "", [])
    | l :: rest => (some (strStrip l), rest)

mutual

/-- `CliArgumentRequest.solve`: silent-mode check, reset the argument,
then prompt. -/
def solveArgRequest (ctx : PromptCtx) (arg : CliArgument) (req : CliRequest)
    (requests : Nat) (inputs : List String) : PromptResult :=
  if ctx.silent then (.error .cliError, inputs, requests)
  else requestValue ctx arg.resetA req requests inputs
termination_by 4 * (4 - requests) + 2
decreasing_by all_goals (simp_wf <;> omega)

/-- `CLiPrompter.request_value`: attempt counter, bound check, value
entry. -/
def requestValue (ctx : PromptCtx) (arg : CliArgument) (req : CliRequest)
    (requests : Nat) (inputs : List String) : PromptResult :=
  if requests + 1 > 3 then
    (.error .help, inputs, requests + 1)   -- CliHelpRequest, no input read
  else if arg.ctype = .appPathT then
    (.error .cliError, inputs, requests + 1)
  else
    afterRead ctx arg req (requests + 1) (readInput ctx arg inputs)
termination_by 4 * (4 - requests) + 1
decreasing_by all_goals (simp_wf <;> omega)

/-- The default-affirmation check after reading a value. -/
def afterRead (ctx : PromptCtx) (arg : CliArgument) (req : CliRequest)
    (requests : Nat) (iv : Option String × List String) : PromptResult :=
  if reqAllowsDefault req ∧ (iv.1 = none ∨ iv.1 = some "") then
    if iv.1 ≠ none then
      (.ok (getValueA { arg with useDefault := true }), iv.2, requests)
    else
      validatePhase ctx arg (some "") requests iv.2
  else
    validatePhase ctx arg iv.1 requests iv.2
termination_by 4 * (4 - requests) + 4
decreasing_by all_goals (simp_wf <;> omega)

/-- The tail of `request_value`: parse the entered line, validate it, and
either end the request or solve the raised request recursively. -/
def validatePhase (ctx : PromptCtx) (arg : CliArgument)
    (inputVal : Option String) (requests : Nat) (rest : List String) :
    PromptResult :=
  match validateRawValues arg (parseRawInput arg.expect inputVal) with
  | .ok vs => (.ok (getValueA { arg with values := vs }), rest, requests)
  | .typeErr => (.error .typeErr, rest, requests)
  | .req r => solveArgRequest ctx arg r requests rest
termination_by 4 * (4 - requests) + 3
decreasing_by all_goals (simp_wf <;> omega)

end

/-- `CliConfirmRequest.solve`: auto-confirm resolves directly to the
default without entering `request_value`; otherwise the generic solve. -/
def confirmSolve (ctx : PromptCtx) (arg : CliArgument) (requests : Nat)
    (inputs : List String) : PromptResult :=
  if ctx.autoConfirm then
    (.ok (getValueA { arg with useDefault := true }), inputs, requests)
  else
    solveArgRequest ctx arg .confirm requests inputs

theorem validate_ne_confirm (arg : CliArgument) (raws : List String) :
    validateRawValues arg raws ≠ .req .confirm := by
  unfold validateRawValues
  by_cases h1 : arg.expect = .one ∧ raws.length > 1
  · simp [h1]
  · simp only [if_neg h1]
    by_cases h2 : raws.length = 0
    · simp only [if_pos h2]
      by_cases h3 : arg.ctype = .boolT
      · simp only [if_pos h3]
        cases coerceAll arg.ctype ["y"] <;> simp
      · simp only [if_neg h3]
        by_cases h4 : arg.required = true ∧ arg.default = none
        · simp [h4]
        · simp [h4]
    · simp only [if_neg h2]
      by_cases h5 : (invalidRawValues arg raws).length > 0
      · simp [h5]
      · simp only [if_neg h5]
        cases coerceAll arg.ctype raws <;> simp

theorem resetA_resetA (arg : CliArgument) :
    arg.resetA.resetA = arg.resetA := rfl


theorem reqAllowsDefault_eq_false (r : CliRequest) (h : r ≠ .confirm) :
    reqAllowsDefault r = false := by
  cases r with
  | confirm => exact absurd rfl h
  | missing => rfl
  | invalid vs => rfl

theorem solveArgRequest_eq (ctx : PromptCtx) (arg : CliArgument)
    (req : CliRequest) (requests : Nat) (inputs : List String)
    (hs : ctx.silent = false) :
    solveArgRequest ctx arg req requests inputs
      = requestValue ctx arg.resetA req requests inputs := by
  rw [solveArgRequest]
  simp [hs]

theorem requestValue_exhausted (ctx : PromptCtx) (arg : CliArgument)
    (req : CliRequest) (inputs : List String) :
    requestValue ctx arg req 3 inputs = (.error .help, inputs, 4) := by
  rw [requestValue.eq_def]
  simp

theorem readInput_terminal (ctx : PromptCtx) (arg : CliArgument)
    (l : String) (rest : List String) (hg : ctx.guiFileDialogs = false) :
    readInput ctx arg (l :: rest) = (some (strStrip l), rest) := by
  rw [readInput]
  rw [if_neg (by simp [hg])]

/-- One failed prompt round: a non-affirming line that fails validation
re-enters `solve` with the raised request and an incremented counter. -/
theorem requestValue_invalid_step (ctx : PromptCtx) (arg : CliArgument)
    (req : CliRequest) (requests : Nat) (l : String) (rest : List String)
    (r' : CliRequest)
    (h3 : ¬(requests + 1 > 3))
    (hct : ¬(arg.ctype = .appPathT))
    (hg : ctx.guiFileDialogs = false)
    (hnd : reqAllowsDefault req = false ∨ strStrip l ≠ "")
    (hval : validateRawValues arg (parseRawInput arg.expect (some (strStrip l)))
      = .req r') :
    requestValue ctx arg req requests (l :: rest)
      = solveArgRequest ctx arg r' (requests + 1) rest := by
  rw [requestValue.eq_def, if_neg h3, if_neg hct,
    readInput_terminal ctx arg l rest hg]
  have hguard : ¬(reqAllowsDefault req = true ∧
      ((some (strStrip l) : Option String) = none
        ∨ (some (strStrip l) : Option String) = some "")) := by
    rintro ⟨hd, hor⟩
    rcases hnd with h | h
    · rw [hd] at h; exact Bool.noConfusion h
    · rcases hor with h2 | h2
      · exact Option.noConfusion h2
      · exact h (Option.some.inj h2)
  rw [afterRead.eq_def]
  simp only [if_neg hguard]
  rw [validatePhase.eq_def, hval]

/-- One affirming confirm round: an (effectively) empty line on a
ConfirmDefault request resolves to the default, consuming the line and
one attempt. -/
theorem requestValue_confirm_affirm (ctx : PromptCtx) (arg : CliArgument)
    (requests : Nat) (i : String) (rest : List String)
    (h3 : ¬(requests + 1 > 3))
    (hct : ¬(arg.ctype = .appPathT))
    (hg : ctx.guiFileDialogs = false)
    (hi : strStrip i = "") :
    requestValue ctx arg .confirm requests (i :: rest)
      = (.ok (getValueA { arg with useDefault := true }), rest, requests + 1) := by
  rw [requestValue.eq_def, if_neg h3, if_neg hct,
    readInput_terminal ctx arg i rest hg, hi]
  rw [afterRead.eq_def]
  simp [reqAllowsDefault]


/-!
## Claims C5 and C6
-/

/-- C5 (confirmed): for every outstanding resolution request (with the
prompter not in silent mode, terminal input in use, and an argument the
prompter accepts), three consecutive invalid terminal inputs raise the
retry-exhaustion signal `CliHelpRequest`, and a fourth line of input is
never read: the remaining input list is returned untouched. -/
theorem c5_prompter_retry_bound (ctx : PromptCtx) (arg : CliArgument)
    (req : CliRequest) (i1 i2 i3 : String) (rest : List String)
    (hs : ctx.silent = false) (hg : ctx.guiFileDialogs = false)
    (hct : ¬(arg.ctype = .appPathT))
    (hc : reqAllowsDefault req = false ∨ strStrip i1 ≠ "")
    (hv1 : ∃ r, validateRawValues arg.resetA
      (parseRawInput arg.expect (some (strStrip i1))) = .req r)
    (hv2 : ∃ r, validateRawValues arg.resetA
      (parseRawInput arg.expect (some (strStrip i2))) = .req r)
    (hv3 : ∃ r, validateRawValues arg.resetA
      (parseRawInput arg.expect (some (strStrip i3))) = .req r) :
    solveArgRequest ctx arg req 0 (i1 :: i2 :: i3 :: rest)
      = (.error .help, rest, 4) := by
  obtain ⟨r1, h1⟩ := hv1
  obtain ⟨r2, h2⟩ := hv2
  obtain ⟨r3, h3⟩ := hv3
  have hr1 : reqAllowsDefault r1 = false :=
    reqAllowsDefault_eq_false r1 (fun hh => validate_ne_confirm _ _ (hh ▸ h1))
  have hr2 : reqAllowsDefault r2 = false :=
    reqAllowsDefault_eq_false r2 (fun hh => validate_ne_confirm _ _ (hh ▸ h2))
  rw [solveArgRequest_eq ctx arg req 0 _ hs]
  rw [requestValue_invalid_step ctx arg.resetA req 0 i1 _ r1
    (by omega) hct hg hc h1]
  rw [solveArgRequest_eq ctx arg.resetA r1 1 _ hs, resetA_resetA]
  rw [requestValue_invalid_step ctx arg.resetA r1 1 i2 _ r2
    (by omega) hct hg (Or.inl hr1) h2]
  rw [solveArgRequest_eq ctx arg.resetA r2 2 _ hs, resetA_resetA]
  rw [requestValue_invalid_step ctx arg.resetA r2 2 i3 _ r3
    (by omega) hct hg (Or.inl hr2) h3]
  rw [solveArgRequest_eq ctx arg.resetA r3 3 _ hs, resetA_resetA]
  exact requestValue_exhausted ctx arg.resetA r3 rest

/-- Witness for C5: a one-valued argument accepting only "ok", prompted
with three invalid lines; the fourth line "never" is not consumed. -/
theorem c5_prompter_retry_bound_witness :
    (⟨false, false, false, ""⟩ : PromptCtx).silent = false
    ∧ solveArgRequest ⟨false, false, false, ""⟩
        { long := "--mode", expect := .one, required := true,
          acceptedValues := .list ["ok"] }
        (.invalid ["bad"]) 0 ["b1", "b2", "b3", "never"]
      = (.error .help, ["never"], 4) :=
  ⟨rfl, c5_prompter_retry_bound ⟨false, false, false, ""⟩
    { long := "--mode", expect := .one, required := true,
      acceptedValues := .list ["ok"] }
    (.invalid ["bad"]) "b1" "b2" "b3" ["never"]
    rfl rfl (by decide) (Or.inl rfl)
    ⟨.invalid ["b1"], by decide⟩ ⟨.invalid ["b2"], by decide⟩
    ⟨.invalid ["b3"], by decide⟩⟩

/-- C6 (amended): a `ConfirmDefault` request resolved while auto-confirm
is active resolves to the default value without reading input and without
touching the attempt counter; a `ConfirmDefault` affirmed by the default
(empty) terminal input also resolves to the default value, but it DOES
increment the prompter's attempt counter by one (the empty line is
consumed like any other prompt answer). -/
theorem c6_confirm_default_amended (ctx : PromptCtx) (arg : CliArgument)
    (requests : Nat) (i : String) (rest : List String)
    (hs : ctx.silent = false) (hg : ctx.guiFileDialogs = false)
    (hct : ¬(arg.ctype = .appPathT)) (h3 : ¬(requests + 1 > 3))
    (hi : strStrip i = "") :
    (ctx.autoConfirm = true →
      confirmSolve ctx arg requests (i :: rest)
        = (.ok (getValueA { arg with useDefault := true }), i :: rest, requests))
    ∧ (ctx.autoConfirm = false →
      confirmSolve ctx arg requests (i :: rest)
        = (.ok (getValueA { arg.resetA with useDefault := true }),
            rest, requests + 1)) := by
  constructor
  · intro ha
    simp [confirmSolve, ha]
  · intro ha
    rw [confirmSolve, if_neg (by simp [ha])]
    rw [solveArgRequest_eq ctx arg .confirm requests _ hs]
    exact requestValue_confirm_affirm ctx arg.resetA requests i rest h3 hct hg hi

/-- A concrete argument with a declared default "d". -/
def defaultedArg : CliArgument :=
  { long := "--x", default := some (.one (.str "d")) }

/-- Witness for C6 (amended), both branches exercised at a concrete
argument with default "d". -/
theorem c6_confirm_default_amended_witness :
    ((⟨false, true, false, ""⟩ : PromptCtx).autoConfirm = true →
      confirmSolve ⟨false, true, false, ""⟩ defaultedArg 0 ["", "z"]
        = (.ok (getValueA { defaultedArg with useDefault := true }),
            ["", "z"], 0))
    ∧ ((⟨false, true, false, ""⟩ : PromptCtx).autoConfirm = false →
      confirmSolve ⟨false, true, false, ""⟩ defaultedArg 0 ["", "z"]
        = (.ok (getValueA { defaultedArg.resetA with useDefault := true }),
            ["z"], 1)) :=
  c6_confirm_default_amended ⟨false, true, false, ""⟩ defaultedArg 0 "" ["z"]
    rfl rfl (by decide) (by omega) (by decide)

/-- C6 (claim as stated is false): a `ConfirmDefault` request affirmed by
the default (empty) input resolves to the default value, but the
prompter's attempt counter is incremented from 0 to 1 — the empty-input
affirmation consumes a request like any other prompt. -/
theorem c6_confirm_default_counterexample :
    confirmSolve ⟨false, false, false, ""⟩ defaultedArg 0 [""]
      = (.ok (.one (.str "d")), [], 1)
    ∧ (1 : Nat) ≠ 0 := by
  constructor
  · rw [confirmSolve, if_neg (by decide)]
    rw [solveArgRequest_eq _ _ _ _ _ rfl]
    rw [requestValue_confirm_affirm _ _ 0 "" [] (by omega) (by decide) rfl
      (by decide)]
    decide
  · decide

/-!
## Part 5: the logger markup engine (`src/engine/logger.py`)

This section embeds `_detect_ansi_pattern` (logger.py:64-133) and the
string-processing loop of `Logger._write` (logger.py:494-564), together
with `Logger._new_line` (logger.py:471-492) and the finally-flush of
`Logger.write` (logger.py:403-431).

Strings are modelled as `List Char` (one entry per Python character).
The stream is modelled by the list of characters written so far plus a
count of how many of them have been flushed; `random.randint(lo, hi)`
is modelled by an oracle list of naturals (each draw is clamped into
`[lo, hi]`, which is all the code relies on), and `sleep` is a no-op.
-/

/-- Exceptions that can escape the write pipeline: `SyntaxError` from
`_detect_ansi_pattern`, `KrakenError` from the recursion ceiling,
`AttributeError` from `re.match(...).group(0)` on a failed match,
`ValueError` from `int(...)` in the `_repeat` special, `IndexError`
from `args[1]` in `_repeat`, and the `RuntimeError` guard in
`_new_line`. -/
inductive WriteErr where
  | syntaxError | kraken | attrError | valueError | indexError | runtimeError
  deriving DecidableEq

/-- Logger stream/indent state: `written` is everything written to the
stream so far (in order), `flushed` is how many of those characters had
been flushed the last time `flush()` ran, `indents` mirrors
`self._indents` and `buffer` mirrors `self._indents_buffer`. -/
structure WState where
  written : List Char
  flushed : Nat
  indents : List (List Char)
  buffer : List Char
  deriving DecidableEq

/-- Fresh logger state: `_indents = [""]`, empty buffer, nothing written. -/
def initSt : WState := ⟨[], 0, [[]], []⟩

/-- Python `str.split(sep)` for a one-character separator: all parts kept,
empty parts included (`"".split(";") == [""]`). -/
def splitAll (sep : Char) : List Char → List (List Char)
  | [] => [[]]
  | a :: as =>
    match splitAll sep as, decide (a = sep) with
    | r, true => [] :: r
    | h :: t, false => (a :: h) :: t
    | [], false => [[a]]

/-- First component and remainder of Python `s.split(sep)` for a multi-char
separator, or `none` when the separator does not occur (`len(parts) < 2`). -/
def splitFirstSeq (sep : List Char) : List Char → Option (List Char × List Char)
  | [] => none
  | c :: cs =>
    if leadChars sep (c :: cs) then some ([], (c :: cs).drop sep.length)
    else (splitFirstSeq sep cs).map (fun p => (c :: p.1, p.2))

/-- Python `pat in s` (substring containment). -/
def containsSeq (pat : List Char) : List Char → Bool
  | [] => decide (pat = [])
  | c :: cs => leadChars pat (c :: cs) || containsSeq pat cs

/-- Python `s.isdigit()` restricted to ASCII digits (the only digits the
code ever feeds it). -/
def isDigits (s : List Char) : Bool :=
  decide (s ≠ []) && s.all Char.isDigit

/-- Decimal value of an all-digit string (`int(tag)` for `tag.isdigit()`). -/
def natOfDigits (s : List Char) : Nat :=
  s.foldl (fun acc c => acc * 10 + (c.toNat - '0'.toNat)) 0

/-- Python `int(s)` on a possibly signed decimal string; `none` models the
`ValueError` on anything else (whitespace is stripped first, as `int` does). -/
def pyInt (s : List Char) : Option Int :=
  let t := (s.dropWhile isWs).reverse.dropWhile isWs |>.reverse
  match t with
  | '-' :: ds => if isDigits ds then some (-(natOfDigits ds : Int)) else none
  | '+' :: ds => if isDigits ds then some (natOfDigits ds : Int) else none
  | ds => if isDigits ds then some (natOfDigits ds : Int) else none

/-- `";".join(parts)`. -/
def joinSemi : List (List Char) → List Char
  | [] => []
  | [p] => p
  | p :: ps => p ++ ';' :: joinSemi ps

/-- Decimal digits of a natural number (`str(n)`), via a fuel argument so
that it is structural (the fuel `n + 1` always suffices). -/
def natCharsAux : Nat → Nat → List Char → List Char
  | 0, _, acc => acc
  | fuel + 1, n, acc =>
    let d := Char.ofNat ('0'.toNat + n % 10)
    if n < 10 then d :: acc else natCharsAux fuel (n / 10) (d :: acc)

/-- `str(n)` for a natural number. -/
def natChars (n : Nat) : List Char := natCharsAux (n + 1) n []

/-- `_ANSI_CODES` (logger.py:25-38). -/
def ansiCodes : List (List Char × List Nat) :=
  [ ("r".data, [0]), ("h".data, [8]), ("cr".data, [31]), ("cg".data, [32]),
    ("cy".data, [33]), ("cb".data, [34]), ("cm".data, [35]), ("cc".data, [36]),
    ("cw".data, [37]), ("bo".data, [1]), ("it".data, [3]), ("di".data, [2]) ]

/-- `_ANSI_MARK = "/;"`. -/
def ansiMark : List Char := ['/', ';']

/-- The keys of `_s_keys_matches` (first `/`-component of each `_specials`
key, logger.py:49-57). -/
def sKeys : List (List Char) :=
  [ "__kraken".data, "_cross".data, "_check".data, "_arrow".data,
    "_wrench".data, "_repeat".data ]

/-- All tags scanned by the first loop of `_detect_ansi_pattern`
(`_s_keys_matches.keys() | _ANSI_CODES.keys()`).  Python iterates this as a
set in unspecified order, but no tag is a prefix of another, so at most one
tag can match a `startswith` test and the order is immaterial; `__kraken`
is listed first for convenience. -/
def allTags : List (List Char) := sKeys ++ ansiCodes.map (·.1)

/-- The unique tag (if any) that `lookahead.startswith(tag)` hits. -/
def findTag (look : List Char) : List (List Char) → Option (List Char)
  | [] => none
  | t :: ts => if leadChars t look then some t else findTag look ts

/-- `_ansi_text(codes)` = `"\x1b[" + ";".join(str(c) for c in codes) + "m"`. -/
def ansiText (codes : List Nat) : List Char :=
  '\x1b' :: '[' :: joinSemi (codes.map natChars) ++ ['m']

/-- `_ansi_pattern(tag)`: `"/;" + tag` followed by `";/"` when the part of
`tag` before the first `/` is a specials key, else `"/"`. -/
def ansiPattern (tag : List Char) : List Char :=
  ansiMark ++ tag ++
    (if tag.takeWhile (· ≠ '/') ∈ sKeys then [';', '/'] else ['/'])

/-- The constant expansion of the `__kraken` special. -/
def krakenText : List Char := "/;__kraken/--;/;__kraken/--;/;/".data

/-- `_enclose(c, *args)` (logger.py:48).  `args` is never empty at the call
site (`str.split` always returns at least one part), so the `[]` case is
arbitrary. -/
def enclose (c : List Char) (args : List (List Char)) : List Char :=
  match args with
  | [] => c
  | a0 :: _ =>
    if a0 = [] then c
    else ansiMark ++ joinSemi args ++ '/' :: c ++ ansiMark

/-- The glyph literals of `_specials` exactly as stored in the source
file: logger.py is a double-encoded file (UTF-8 bytes re-encoded), so
Python reads the cross, check and arrow glyphs as three characters each
and the wrench glyph as four; these are those code points. -/
def crossGlyph : List Char := [Char.ofNat 0xe2, Char.ofNat 0x153, Char.ofNat 0x2014]

/-- Check-mark glyph as read from the source file. -/
def checkGlyph : List Char := [Char.ofNat 0xe2, Char.ofNat 0x153, Char.ofNat 0x201c]

/-- Arrow glyph as read from the source file. -/
def arrowGlyph : List Char := [Char.ofNat 0xe2, Char.ofNat 0x2020, Char.ofNat 0x2019]

/-- Wrench glyph as read from the source file. -/
def wrenchGlyph : List Char :=
  [Char.ofNat 0xf0, Char.ofNat 0x178, Char.ofNat 0x203a, Char.ofNat 0xa0]

/-- The `_specials` handler bodies (logger.py:49-56): `__kraken` expands to
a constant that contains itself, the glyph specials wrap a glyph in the
style given by their arguments, and `_repeat` is
`args[0] * max(1, int(args[1]))` (raising `ValueError` on a bad integer
and `IndexError` on a missing second argument). -/
def specialText (tag : List Char) (args : List (List Char)) :
    Except WriteErr (List Char) :=
  if tag = "__kraken".data then .ok krakenText
  else if tag = "_cross".data then .ok (enclose crossGlyph args)
  else if tag = "_check".data then .ok (enclose checkGlyph args)
  else if tag = "_arrow".data then .ok (enclose arrowGlyph args)
  else if tag = "_wrench".data then .ok (enclose wrenchGlyph args)
  else if tag = "_repeat".data then
    match args with
    | a0 :: a1 :: _ =>
      match pyInt a1 with
      | some n => .ok ((List.replicate (max 1 n).toNat a0).flatten)
      | none => .error .valueError
    | _ => .error .indexError
  else .ok []

/-- Codes for a shortcut tag (`_ANSI_CODES[tag]`). -/
def codesOf (tag : List Char) : List Nat := (ansiCodes.lookup tag).getD []

/-- Whether a tag is a known shortcut (`tag in _ANSI_CODES.keys()`). -/
def isAnsiKey (tag : List Char) : Bool := (ansiCodes.lookup tag).isSome

/-- The combination loop of `_detect_ansi_pattern` (logger.py:116-133):
iterate over the `;`-separated tags of `lk`, accumulating codes; a numeric
tag contributes itself, an unknown tag makes the whole pattern a bare
reset `"/;"`, and after each tag the loop returns as soon as
`tag + "/"` occurs in `lk + "/"`; running out of tags without that
raises the missing-trailing-`/` `SyntaxError`. -/
def combLoop (lk : List Char) : List (List Char) → List Nat →
    Except WriteErr (List Char × List Char)
  | [], _ => .error .syntaxError
  | tag :: rest, codes =>
    if isDigits tag then
      let codes' := codes ++ [natOfDigits tag]
      if containsSeq (tag ++ ['/']) (lk ++ ['/']) then
        .ok (ansiPattern lk, ansiText codes')
      else combLoop lk rest codes'
    else if ¬ isAnsiKey tag then .ok (ansiMark, ansiText [0])
    else
      let codes' := codes ++ codesOf tag
      if containsSeq (tag ++ ['/']) (lk ++ ['/']) then
        .ok (ansiPattern lk, ansiText codes')
      else combLoop lk rest codes'

/-- `max_lookahead` = longest `_specials` key (`"_repeat/c;i;/"`, 13) + 1. -/
def maxLookahead : Nat := 14

/-- `_detect_ansi_pattern` (logger.py:64-133).  Returns the matched
pattern and its replacement text, or the raised exception.  The tag scan
tests `startswith` against the 14-character lookahead exactly as the
source does; the specials argument split runs on the untruncated
`test_str`, also as in the source. -/
def detectAnsiPattern (s : List Char) : Except WriteErr (List Char × List Char) :=
  if ¬ leadChars ansiMark s then .ok ([], s)
  else
    let testStr := s.drop 2
    let look := testStr.take maxLookahead
    let combination : Except WriteErr (List Char × List Char) :=
      let lk := (splitAll '/' look).headD []
      combLoop lk (splitAll ';' lk) []
    match findTag look allTags with
    | some tag =>
      if leadChars (tag ++ ['/']) look then
        if tag ∈ sKeys then
          match splitFirstSeq [';', '/'] (testStr.drop (tag.length + 1)) with
          | none => .error .syntaxError
          | some (inner, _) =>
            match specialText tag (splitAll ';' inner) with
            | .error e => .error e
            | .ok text => .ok (ansiPattern (tag ++ '/' :: inner), text)
        else .ok (ansiPattern tag, ansiText (codesOf tag))
      else if ';' ∈ look then combination
      else .error .syntaxError
    | none => combination

/-- The run of `[0-9;]*` followed by `m` in the ANSI-escape regex
`\x1b\[[0-9;]*m`; returns the consumed characters including the `m`. -/
def ansiTail : List Char → Option (List Char)
  | [] => none
  | c :: cs =>
    if c = 'm' then some ['m']
    else if c.isDigit || c = ';' then (ansiTail cs).map (c :: ·)
    else none

/-- `re.match(r"\x1b\[[0-9;]*m", lookahead)` where the source's lookahead
slice `remaining[0:max(20, len(remaining))]` is in fact all of
`remaining` (the `max` keeps the slice at least as long as the string).
`none` models the `AttributeError` from `.group(0)` on a failed match. -/
def ansiEscMatch : List Char → Option (List Char)
  | '\x1b' :: '[' :: rest => (ansiTail rest).map (fun t => '\x1b' :: '[' :: t)
  | _ => none

/-- A successful escape match consumes at least one character. -/
theorem ansiEscMatch_pos (s m : List Char) (h : ansiEscMatch s = some m) :
    0 < m.length := by
  unfold ansiEscMatch at h
  split at h
  · simp only [Option.map_eq_some'] at h
    obtain ⟨t, _, rfl⟩ := h
    simp
  · exact absurd h (by simp)

/-- `Logger._new_line(" ")` (logger.py:471-492): writes `"\n"` to the
stream first; with a pushed indent it writes that many spaces
(`debug.print_indent_chars` held at its default `False`); with the base
indent corrupted it raises `RuntimeError`; finally the indents buffer is
reset to the current indent characters. -/
def newLine (st : WState) : WState × Option WriteErr :=
  let st1 := { st with written := st.written ++ ['\n'] }
  let ic := st.indents.getLastD []
  if st.indents.length > 1 then
    ({ st1 with written := st1.written ++ List.replicate ic.length ' ',
                buffer := ic }, none)
  else if (st.indents.headD []).length > 0 then (st1, some .runtimeError)
  else ({ st1 with buffer := ic }, none)

/-- `self._stream.flush()`: every written character becomes flushed. -/
def flushSt (st : WState) : WState := { st with flushed := st.written.length }

/-- One `random.randint(lo, hi)` draw from the oracle, clamped into
`[lo, hi]` (all the code uses is that the result lies in that range). -/
def drawRand (lo hi : Nat) (rng : List Nat) : Nat :=
  min hi (max lo (rng.headD lo))

/-- The `while remaining:` loop of `Logger._write` for one string argument
(logger.py:512-564).  `pa` is the `ansi` kwarg, `an` is `animate`,
`lo`/`hi` are `flush_rate`, `limit` is `security_limit` and `loops` the
iteration counter.  Returns the final state paired with the raised
exception, if any (the state records everything written before the
raise). -/
def writeLoop (pa an : Bool) (lo hi limit : Nat) (loops : Nat) (st : WState)
    (rng : List Nat) (remaining : List Char) : WState × Option WriteErr :=
  match remaining with
  | [] => (st, none)
  | c :: rest =>
    if pa = true ∧ (c :: rest).take 2 = ansiMark then
      match detectAnsiPattern (c :: rest) with
      | .error e => (st, some e)
      | .ok (pat, text) =>
        if _h : loops + 1 > limit then (st, some .kraken)
        else writeLoop pa an lo hi limit (loops + 1) st rng
          (text ++ (c :: rest).drop pat.length)
    else if c = '\n' then
      match h : newLine st with
      | (st', some e) => (st', some e)
      | (st', none) => writeLoop pa an lo hi limit (loops + 1) st' rng rest
    else if c = '\x1b' then
      match hm : ansiEscMatch (c :: rest) with
      | none => (st, some .attrError)
      | some m =>
        writeLoop pa an lo hi limit (loops + 1)
          { st with written := st.written ++ m } rng ((c :: rest).drop m.length)
    else
      let st' := { st with written := st.written ++ [c],
                           buffer := st.buffer ++ [c] }
      if an = false then writeLoop pa an lo hi limit (loops + 1) st' rng rest
      else if rest.length = 0 then
        writeLoop pa an lo hi limit (loops + 1) (flushSt st') rng rest
      else
        let mod := max 1 (drawRand lo hi rng)
        let st'' := if rest.length % mod = 0 then flushSt st' else st'
        writeLoop pa an lo hi limit (loops + 1) st'' rng.tail rest
  termination_by (limit + 1 - loops, remaining.length)
  decreasing_by
  · exact Prod.Lex.left _ _ (by omega)
  all_goals
    rcases Nat.lt_or_ge loops (limit + 1) with hl | hl
    · exact Prod.Lex.left _ _ (by omega)
    · have h1 : limit + 1 - (loops + 1) = limit + 1 - loops := by omega
      rw [h1]
      refine Prod.Lex.right _ ?_
      simp only [List.length_drop, List.length_cons]
      try have hpos := ansiEscMatch_pos _ _ hm
      omega

/-- `Logger.write` for a single string argument (logger.py:403-431,
`debug.fallback` held at its default `False`): resets the indent stack,
runs `_write` — which returns immediately when `verbose_only` holds
without `verbose`, and otherwise processes the string with
`security_limit = len(remaining) + 10000` — and in the `finally` block
flushes the stream, resets the indents and truncates the indents buffer
(this happens whether or not an exception was raised, and the exception
is then re-raised). -/
def loggerWrite (pa an vOnly verbose : Bool) (lo hi : Nat) (rng : List Nat)
    (arg : List Char) : WState × Option WriteErr :=
  if vOnly = true ∧ verbose = false then (initSt, none)
  else
    let r := writeLoop pa an lo hi (arg.length + 10000) 0 initSt rng arg
    ({ written := r.1.written, flushed := r.1.written.length,
       indents := [[]], buffer := [] }, r.2)

/-!
### Step lemmas for the write loop
-/

/-- Processing one ordinary character (not `/`, `\n` or `\x1b`) with
animation off: the character goes to the stream and to the indents
buffer, nothing is flushed, and the loop continues. -/
theorem writeLoop_plain_step (pa : Bool) (lo hi limit : Nat) (c : Char)
    (cs : List Char) (hc : c ≠ '/' ∧ c ≠ '\n' ∧ c ≠ '\x1b')
    (loops : Nat) (st : WState) (rng : List Nat) (rest : List Char) :
    writeLoop pa false lo hi limit loops st rng (c :: (cs ++ rest))
      = writeLoop pa false lo hi limit (loops + 1)
          { st with written := st.written ++ [c], buffer := st.buffer ++ [c] }
          rng (cs ++ rest) := by
  rw [writeLoop.eq_def]
  dsimp only
  have hcond : ¬(pa = true ∧ List.take 2 (c :: (cs ++ rest)) = ansiMark) := by
    simp [ansiMark, hc.1]
  rw [if_neg hcond, if_neg hc.2.1, if_neg hc.2.2, if_pos rfl]

/-- Processing a run of ordinary characters with animation off appends
the run to the stream and to the indents buffer and never flushes. -/
theorem writeLoop_plain_run (pa : Bool) (lo hi limit : Nat) :
    ∀ (s : List Char), (∀ c ∈ s, c ≠ '/' ∧ c ≠ '\n' ∧ c ≠ '\x1b') →
    ∀ (loops : Nat) (st : WState) (rng : List Nat) (rest : List Char),
    writeLoop pa false lo hi limit loops st rng (s ++ rest)
      = writeLoop pa false lo hi limit (loops + s.length)
          { st with written := st.written ++ s, buffer := st.buffer ++ s }
          rng rest := by
  intro s
  induction s with
  | nil => intro _ loops st rng rest; simp
  | cons c cs ih =>
    intro hs loops st rng rest
    have hc := hs c (by simp)
    have hcs : ∀ x ∈ cs, x ≠ '/' ∧ x ≠ '\n' ∧ x ≠ '\x1b' :=
      fun x hx => hs x (by simp [hx])
    rw [List.cons_append, writeLoop_plain_step pa lo hi limit c cs hc]
    rw [ih hcs]
    have h1 : loops + 1 + cs.length = loops + (c :: cs).length := by
      simp only [List.length_cons]; omega
    rw [h1]
    simp only [List.append_assoc, List.singleton_append]

/-!
### The kraken: a style that expands into itself
-/

/-- The self-expanding kraken pattern: the ansi mark, `__kraken`, a
slash, two dashes and the end marker (15 characters). -/
def krakPat : List Char :=
  ['/', ';', '_', '_', 'k', 'r', 'a', 'k', 'e', 'n', '/', '-', '-', ';', '/']

/-- The sixteen characters the kraken expansion appends after itself. -/
def krakRest : List Char :=
  [';', '_', '_', 'k', 'r', 'a', 'k', 'e', 'n', '/', '-', '-', ';', '/', ';', '/']

/-- The kraken expansion begins with the kraken pattern itself. -/
theorem krakenText_eq : krakenText = krakPat ++ krakRest := by decide

/-- Detecting a string that starts with the kraken pattern always
succeeds with the constant self-containing expansion, whatever follows. -/
theorem detect_kraken (junk : List Char) :
    detectAnsiPattern (krakPat ++ junk) = .ok (krakPat, krakenText) := by
  simp [detectAnsiPattern, findTag, allTags, sKeys, ansiCodes, leadChars,
    maxLookahead, ansiMark, splitAll, splitFirstSeq, specialText, ansiPattern,
    krakPat, krakenText, List.take, List.drop]

/-- One loop iteration on a kraken-headed string: the state is untouched
and the string is still kraken-headed, but the iteration counter grew —
unless it has passed `security_limit`, in which case `KrakenError` is
raised. -/
theorem writeLoop_kraken_step (an : Bool) (lo hi limit loops : Nat)
    (st : WState) (rng : List Nat) (junk : List Char) :
    writeLoop true an lo hi limit loops st rng (krakPat ++ junk)
      = if loops + 1 > limit then (st, some .kraken)
        else writeLoop true an lo hi limit (loops + 1) st rng
          (krakPat ++ (krakRest ++ junk)) := by
  have hd := detect_kraken junk
  rw [krakenText_eq] at hd
  rw [writeLoop.eq_def]
  simp only [krakPat, List.cons_append, List.nil_append] at hd ⊢
  simp [hd, ansiMark, List.take, List.drop, krakRest, List.append_assoc]

/-- From any iteration count still under the ceiling, a kraken-headed
string drives the loop into `KrakenError` without writing anything. -/
theorem c8_general : ∀ (n : Nat) (an : Bool) (lo hi limit loops : Nat)
    (st : WState) (rng : List Nat) (junk : List Char),
    loops ≤ limit → n = limit - loops →
    writeLoop true an lo hi limit loops st rng (krakPat ++ junk)
      = (st, some .kraken) := by
  intro n
  induction n with
  | zero =>
    intro an lo hi limit loops st rng junk hle hn
    rw [writeLoop_kraken_step, if_pos (by omega)]
  | succ n ih =>
    intro an lo hi limit loops st rng junk hle hn
    rw [writeLoop_kraken_step, if_neg (by omega)]
    exact ih an lo hi limit (loops + 1) st rng _ (by omega) (by omega)

/-!
### C7: unterminated markup tags and flushing
-/

/-- C7 (claim as stated is false): with animation enabled — a legal
configuration of a render call — output can be flushed to the stream
before the `SyntaxError` for an unterminated tag is raised.  Rendering
`"aaaaa" ++ "/;cr"` (the tag `cr` missing its required closing marker)
with `animate=True`, the default `flush_rate=[5,15]` and an oracle whose
first `randint` draw is 8 flushes the first written character (the state
at the moment of the raise records 1 flushed character), and the call as
a whole raises the error after having written the plain prefix. -/
theorem c7_flush_before_error_counterexample :
    writeLoop true true 5 15 10009 0 initSt [8, 9, 9, 9]
        ('a' :: 'a' :: 'a' :: 'a' :: 'a' :: '/' :: ';' :: 'c' :: 'r' :: [])
      = (⟨['a', 'a', 'a', 'a', 'a'], 1, [[]], ['a', 'a', 'a', 'a', 'a']⟩,
         some .syntaxError)
    ∧ loggerWrite true true false true 5 15 [8, 9, 9, 9]
        ('a' :: 'a' :: 'a' :: 'a' :: 'a' :: '/' :: ';' :: 'c' :: 'r' :: [])
      = (⟨['a', 'a', 'a', 'a', 'a'], 5, [[]], []⟩, some .syntaxError) := by
  have h : writeLoop true true 5 15 10009 0 initSt [8, 9, 9, 9]
      ('a' :: 'a' :: 'a' :: 'a' :: 'a' :: '/' :: ';' :: 'c' :: 'r' :: [])
      = (⟨['a', 'a', 'a', 'a', 'a'], 1, [[]], ['a', 'a', 'a', 'a', 'a']⟩,
         some .syntaxError) := by
    simp [writeLoop, flushSt, drawRand, detectAnsiPattern, findTag, allTags,
      sKeys, ansiCodes, leadChars, maxLookahead, ansiMark, splitAll, combLoop,
      splitFirstSeq, initSt]
  exact ⟨h, by simp [loggerWrite, h]⟩

/-- C7 (amended): with ansi processing on and animation off (the
default), rendering a plain prefix (no slash, newline or escape
character) followed by the unterminated tag `"/;cr"` raises the markup
`SyntaxError`; at the moment of the raise exactly the plain prefix has
been written to the stream and nothing has been flushed — the flushed
count is unchanged (the unconditional cleanup flush of `Logger.write`
happens only after the exception is already propagating). -/
theorem c7_unterminated_no_flush_amended (lo hi limit loops : Nat)
    (st : WState) (rng : List Nat) (pre : List Char)
    (hpre : ∀ c ∈ pre, c ≠ '/' ∧ c ≠ '\n' ∧ c ≠ '\x1b') :
    writeLoop true false lo hi limit loops st rng
        (pre ++ ['/', ';', 'c', 'r'])
      = ({ st with written := st.written ++ pre, buffer := st.buffer ++ pre },
         some .syntaxError)
    ∧ (writeLoop true false lo hi limit loops st rng
        (pre ++ ['/', ';', 'c', 'r'])).1.flushed = st.flushed := by
  have hdet : detectAnsiPattern ['/', ';', 'c', 'r'] = .error .syntaxError := by
    decide
  have h : writeLoop true false lo hi limit loops st rng
      (pre ++ ['/', ';', 'c', 'r'])
      = ({ st with written := st.written ++ pre, buffer := st.buffer ++ pre },
         some .syntaxError) := by
    rw [writeLoop_plain_run true lo hi limit pre hpre]
    rw [writeLoop.eq_def]
    dsimp only
    rw [if_pos (by constructor <;> rfl)]
    rw [hdet]
  exact ⟨h, by rw [h]⟩

/-- Closed instance of the amended C7 theorem at the prefix `"a"` with
the default flush rate: the error state is the single written character
with nothing flushed. -/
theorem c7_unterminated_no_flush_amended_witness :
    writeLoop true false 5 15 10005 0 initSt []
        ('a' :: ['/', ';', 'c', 'r'])
      = ({ initSt with written := initSt.written ++ ['a'],
                       buffer := initSt.buffer ++ ['a'] },
         some .syntaxError)
    ∧ (writeLoop true false 5 15 10005 0 initSt []
        ('a' :: ['/', ';', 'c', 'r'])).1.flushed = initSt.flushed :=
  c7_unterminated_no_flush_amended 5 15 10005 0 initSt [] ['a'] (by decide)

/-!
### C8: the recursion ceiling
-/

/-- C8: markup rendering cannot loop forever on a self-expanding style.
First conjunct: from any iteration count still at or under the ceiling,
the loop on a kraken-headed string reaches the dedicated `KrakenError`
with nothing written or flushed (the state is returned untouched); this
is the explicit `loops > security_limit` check of `Logger._write` (the
model itself is a total function, so the loop terminates on every input,
the ceiling bounding the pattern expansions).  Second conjunct: a render
call on the kraken pattern itself — whose `security_limit` is
`len(arg) + 10000` — raises `KrakenError` with an empty stream. -/
theorem c8_markup_recursion_ceiling :
    (∀ (an : Bool) (lo hi limit loops : Nat) (st : WState) (rng : List Nat)
        (junk : List Char), loops ≤ limit →
        writeLoop true an lo hi limit loops st rng (krakPat ++ junk)
          = (st, some .kraken))
    ∧ ∀ (an : Bool) (lo hi : Nat) (rng : List Nat),
        loggerWrite true an false true lo hi rng krakPat
          = (initSt, some .kraken) := by
  constructor
  · intro an lo hi limit loops st rng junk hle
    exact c8_general (limit - loops) an lo hi limit loops st rng junk hle rfl
  · intro an lo hi rng
    have h := c8_general (krakPat.length + 10000) an lo hi
        (krakPat.length + 10000) 0 initSt rng [] (by omega) (by omega)
    rw [List.append_nil] at h
    simp only [loggerWrite, h]
    simp [initSt]

/-- Closed instance of C8: with ceiling 3 the kraken input raises
`KrakenError` from a fresh state. -/
theorem c8_markup_recursion_ceiling_witness :
    writeLoop true false 5 15 3 0 initSt [] (krakPat ++ [])
      = (initSt, some .kraken) :=
  c8_markup_recursion_ceiling.1 false 5 15 3 0 initSt [] [] (by decide)

/-!
## Part 6: the structured pretty-printer (`DataPrinter`, logger.py:196-354)

The printer drives the logger: every piece of text goes through
`Logger._write`, i.e. through `writeLoop` above, so style markup is
expanded to ANSI escapes on the way to the stream and plain characters
are also collected in the indents buffer.  Values are the JSON-like
`JValue` from Part 1 (dict keys are strings, as produced by JSON).

Configuration is `write`-call kwargs resolved against the defaults of
`_default_kwargs` (logger.py:136-164); the fields of `PrintCfg` are the
options the printer reads, `animate` off and `verbose` on as per the
defaults.  The style table is held at its default values.
-/

/-- The printer options: `isChecker` is whether the logger is the
`inline-checker` trial logger, the rest are `ansi`,
`data_print.styles.enable`, `data_print.max_inline`,
`data_print.compact`, `data_print.force_inline` (boolean form) and
`data_print.decorate_items`. -/
structure PrintCfg where
  isChecker : Bool
  processAnsi : Bool
  stylesOn : Bool
  maxInline : Nat
  compact : Bool
  forceInline : Bool
  decorateItems : Bool
  deriving DecidableEq

/-- The kwargs of the trial logger created by `_default_inline`
(logger.py:206-220): name `inline-checker`, `ansi=False`, styles
disabled, `force_inline=True`, `compact` inherited; `max_inline` and
`decorate_items` resolve to the hardcoded defaults, but neither is
consulted on a trial render (the checker short-circuit makes every
container inline). -/
def checkerCfg (cfg : PrintCfg) : PrintCfg :=
  ⟨true, false, false, 160, cfg.compact, true, true⟩

/-- One `Logger._write` call on a string: the loop with animation off and
this call's own `security_limit`. -/
def runWrite (pa : Bool) (st : WState) (s : List Char) :
    WState × Option WriteErr :=
  writeLoop pa false 5 15 (s.length + 10000) 0 st [] s

/-- Sequencing: a further `_write` happens only if nothing was raised. -/
def thenWrite (pa : Bool) (r : WState × Option WriteErr) (s : List Char) :
    WState × Option WriteErr :=
  match r with
  | (st, some e) => (st, some e)
  | (st, none) => runWrite pa st s

/-- `Logger._indent` (logger.py:461-466): push the indents-buffer
contents (the buffer never holds ANSI escapes — the escape branch of the
loop bypasses it — so the `re.sub` strip is the identity). -/
def indentPush (st : WState) : WState :=
  { st with indents := st.indents ++ [st.buffer] }

/-- `Logger._dindent` (logger.py:468-469). -/
def indentPop (st : WState) : WState :=
  { st with indents := st.indents.dropLast }

/-- `build_simple_style` (logger.py:232-235) with the resolved style
string. -/
def buildSimpleStyle (cfg : PrintCfg) (style : List Char) (text : List Char) :
    List Char :=
  if cfg.stylesOn = false then text
  else ansiMark ++ style ++ '/' :: text ++ ansiMark

/-- `decorate("start"/"end", type=...)` (logger.py:258-264), `sep` style
`cw;di`. -/
def decoBracket (cfg : PrintCfg) (isDict isStart : Bool) : List Char :=
  buildSimpleStyle cfg "cw;di".data
    (if isDict then (if isStart then ['\x7b'] else ['\x7d'])
     else (if isStart then ['['] else [']']))

/-- `decorate("comma")` (logger.py:265-266). -/
def decoComma (cfg : PrintCfg) : List Char :=
  buildSimpleStyle cfg "cw;di".data [',']

/-- `decorate("item")` for a string path element (logger.py:267-272):
with `decorate_items` an arrow special styled with the `obji` style
`cb;di` (an f-string, not `build_simple_style`, so not gated on
`styles.enable`), otherwise nothing. -/
def decoItemKey (cfg : PrintCfg) : List Char :=
  if cfg.decorateItems then
    ' ' :: ansiMark ++ "_arrow".data ++ '/' :: "cb;di".data ++
      [';', '/'] ++ ansiMark ++ [' ']
  else []

/-- `decorate("item")` for an integer path element (logger.py:269-270),
`arri` style `cb;di`. -/
def decoItemIdx (cfg : PrintCfg) (i : Nat) : List Char :=
  if cfg.decorateItems then
    buildSimpleStyle cfg "cb;di".data (' ' :: natChars i ++ [' '])
  else []

/-- `decorate("key")` (logger.py:273-276): the key and a styled colon
wrapped in the `objk` style `cg;bo`. -/
def decoKey (cfg : PrintCfg) (k : List Char) : List Char :=
  buildSimpleStyle cfg "cg;bo".data
    (k ++ buildSimpleStyle cfg "cw;di".data [':'])

/-- `str(n)` for a Python int modelled as `Int`. -/
def intChars (n : Int) : List Char :=
  if n < 0 then '-' :: natChars n.natAbs else natChars n.toNat

/-- `decorate_value` (logger.py:279-289) on scalar values: `bool` style
`cc`, numbers style `cb`, strings quoted in style `cw;it`, anything else
(`None` here) via `str` in style `cr;di`.  Containers never reach it. -/
def decoValue (cfg : PrintCfg) : JValue → List Char
  | .bool b =>
    buildSimpleStyle cfg "cc".data (if b then "True".data else "False".data)
  | .num n => buildSimpleStyle cfg "cb".data (intChars n)
  | .str s => buildSimpleStyle cfg "cw;it".data ('\'' :: s.data ++ ['\''])
  | .null => buildSimpleStyle cfg "cr;di".data "None".data
  | _ => []

/-!
The printer recursion: `_default_inline` renders the value on a fresh
trial logger whose name short-circuits its own `_default_inline` to
`True` (logger.py:203-204).  The printer restricted to that trial logger
is therefore the `T`-family below — the same `_write_dict` /
`_write_list` / `_write_value` bodies with the inline decision constant
`True` — and the full printer calls it from `checkInline`; the
`_write_dict` and `_write_list` bodies are written inside the value
dispatcher so that the recursion is structural, and `printDictT` and
`printDict` below restate them as the stand-alone methods.  A raised
exception aborts the remaining statements, expressed by the `andThen`
sequencing.
-/

/-- Sequencing of printer statements: an exception short-circuits. -/
def andThen (r : WState × Option WriteErr)
    (f : WState → WState × Option WriteErr) : WState × Option WriteErr :=
  match r with
  | (st, some e) => (st, some e)
  | (st, none) => f st

/-- Sequencing after the inline decision: an exception raised inside the
trial render propagates, leaving the logger state as it was. -/
def andInl (r : Bool × Option WriteErr) (st1 : WState)
    (f : Bool → WState × Option WriteErr) : WState × Option WriteErr :=
  match r with
  | (_, some e) => (st1, some e)
  | (b, none) => f b

mutual

/-- `DataPrinter._write_value` on the trial logger, with the
`_write_dict` and `_write_list` bodies inlined (their `_default_inline`
returns `True` at once, so `inline = True or force_inline()`). -/
def printValueT (cfg : PrintCfg) (st : WState) : JValue →
    WState × Option WriteErr
  | .obj o =>
    andThen (runWrite cfg.processAnsi st (decoBracket cfg true true)) fun st0 =>
    andThen (printEntriesT cfg (true || cfg.forceInline) cfg.compact true
        (indentPush st0) o) fun st2 =>
    andThen (runWrite cfg.processAnsi st2 (decoBracket cfg true false))
      fun st3 => (indentPop st3, none)
  | .arr l =>
    andThen (runWrite cfg.processAnsi st (decoBracket cfg false true)) fun st0 =>
    andThen (printElemsT cfg (true || cfg.forceInline) cfg.compact 0
        (indentPush st0) l) fun st2 =>
    andThen (runWrite cfg.processAnsi st2 (decoBracket cfg false false))
      fun st3 => (indentPop st3, none)
  | v => runWrite cfg.processAnsi st (decoValue cfg v)

/-- The dict entry loop on the trial logger. -/
def printEntriesT (cfg : PrintCfg) (inline compacting first : Bool)
    (st : WState) : JObj → WState × Option WriteErr
  | .nil => (st, none)
  | .cons k v tl =>
    andThen (if first || inline then (st, none) else newLine st) fun st1 =>
    andThen (if inline = false ∧ compacting = false then
               runWrite cfg.processAnsi st1 (decoItemKey cfg)
             else (st1, none)) fun st2 =>
    andThen (runWrite cfg.processAnsi st2 (decoKey cfg k.data)) fun st3 =>
    andThen (if compacting then (st3, none)
             else runWrite cfg.processAnsi st3 [' ']) fun st4 =>
    andThen (printValueT cfg st4 v) fun st5 =>
    andThen (if tl = JObj.nil then (st5, none)
             else
               andThen (runWrite cfg.processAnsi st5 (decoComma cfg))
                 fun st6 =>
               if compacting then (st6, none)
               else runWrite cfg.processAnsi st6 [' ']) fun st7 =>
    printEntriesT cfg inline compacting false st7 tl

/-- The list element loop on the trial logger. -/
def printElemsT (cfg : PrintCfg) (inline compacting : Bool) (i : Nat)
    (st : WState) : JList → WState × Option WriteErr
  | .nil => (st, none)
  | .cons v tl =>
    andThen (if i = 0 || inline then (st, none) else newLine st) fun st1 =>
    andThen (if inline = false ∧ compacting = false then
               runWrite cfg.processAnsi st1 (decoItemIdx cfg i)
             else (st1, none)) fun st2 =>
    andThen (printValueT cfg st2 v) fun st3 =>
    andThen (if tl = JList.nil then (st3, none)
             else
               andThen (runWrite cfg.processAnsi st3 (decoComma cfg))
                 fun st4 =>
               if compacting then (st4, none)
               else runWrite cfg.processAnsi st4 [' ']) fun st5 =>
    printElemsT cfg inline compacting (i + 1) st5 tl

end

/-- `DataPrinter._write_dict` on the trial logger as a stand-alone
function (definitionally the `.obj` case of `printValueT`). -/
def printDictT (cfg : PrintCfg) (st : WState) (o : JObj) :
    WState × Option WriteErr :=
  printValueT cfg st (.obj o)

/-- `DataPrinter._default_inline` (logger.py:201-227) below the checker
short-circuit: render the value on a fresh trial logger with the checker
kwargs and compare the produced length against
`max_inline - len(self._logger._indents[-1])` of the calling logger
(passed here as `budget` and `ind`). -/
def checkInline (ccfg : PrintCfg) (budget ind : Nat) (v : JValue) :
    Bool × Option WriteErr :=
  match printValueT ccfg initSt v with
  | (_, some e) => (true, some e)
  | (stT, none) => (decide (stT.written.length + ind ≤ budget), none)

mutual

/-- `DataPrinter._write_value` (logger.py:346-354) with the
`_write_dict` (logger.py:291-318) and `_write_list` (logger.py:320-344)
bodies inlined: opening bracket, indent push, the inline decision
(`_default_inline(d) or force_inline()`, short-circuited to `True` on
the trial logger itself), the entry loop, closing bracket, indent pop. -/
def printValue (cfg : PrintCfg) (st : WState) : JValue →
    WState × Option WriteErr
  | .obj o =>
    andThen (runWrite cfg.processAnsi st (decoBracket cfg true true)) fun st0 =>
    andInl (if cfg.isChecker then (true, none)
            else checkInline (checkerCfg cfg) cfg.maxInline
              ((indentPush st0).indents.getLastD []).length (.obj o))
        (indentPush st0) fun inl0 =>
    andThen (printEntries cfg (inl0 || cfg.forceInline) cfg.compact true
        (indentPush st0) o) fun st2 =>
    andThen (runWrite cfg.processAnsi st2 (decoBracket cfg true false))
      fun st3 => (indentPop st3, none)
  | .arr l =>
    andThen (runWrite cfg.processAnsi st (decoBracket cfg false true)) fun st0 =>
    andInl (if cfg.isChecker then (true, none)
            else checkInline (checkerCfg cfg) cfg.maxInline
              ((indentPush st0).indents.getLastD []).length (.arr l))
        (indentPush st0) fun inl0 =>
    andThen (printElems cfg (inl0 || cfg.forceInline) cfg.compact 0
        (indentPush st0) l) fun st2 =>
    andThen (runWrite cfg.processAnsi st2 (decoBracket cfg false false))
      fun st3 => (indentPop st3, none)
  | v => runWrite cfg.processAnsi st (decoValue cfg v)

/-- The `for key, item in d.items()` loop body of `_write_dict`
(logger.py:297-316): the first entry forces `inlining` for itself (so it
never starts a new line), later entries start with `_new_line(" ")` when
not inline; then the item decoration (only when neither inline nor
compacting), the key decoration, a space unless compacting, the value,
and a comma plus optional space unless last.  Keys of a Python dict are
distinct, so the source's `key == list(d.keys())[0]` tests are the
positional first/last used here. -/
def printEntries (cfg : PrintCfg) (inline compacting first : Bool)
    (st : WState) : JObj → WState × Option WriteErr
  | .nil => (st, none)
  | .cons k v tl =>
    andThen (if first || inline then (st, none) else newLine st) fun st1 =>
    andThen (if inline = false ∧ compacting = false then
               runWrite cfg.processAnsi st1 (decoItemKey cfg)
             else (st1, none)) fun st2 =>
    andThen (runWrite cfg.processAnsi st2 (decoKey cfg k.data)) fun st3 =>
    andThen (if compacting then (st3, none)
             else runWrite cfg.processAnsi st3 [' ']) fun st4 =>
    andThen (printValue cfg st4 v) fun st5 =>
    andThen (if tl = JObj.nil then (st5, none)
             else
               andThen (runWrite cfg.processAnsi st5 (decoComma cfg))
                 fun st6 =>
               if compacting then (st6, none)
               else runWrite cfg.processAnsi st6 [' ']) fun st7 =>
    printEntries cfg inline compacting false st7 tl

/-- The `for i, item in enumerate(l)` loop body of `_write_list`
(logger.py:326-342). -/
def printElems (cfg : PrintCfg) (inline compacting : Bool) (i : Nat)
    (st : WState) : JList → WState × Option WriteErr
  | .nil => (st, none)
  | .cons v tl =>
    andThen (if i = 0 || inline then (st, none) else newLine st) fun st1 =>
    andThen (if inline = false ∧ compacting = false then
               runWrite cfg.processAnsi st1 (decoItemIdx cfg i)
             else (st1, none)) fun st2 =>
    andThen (printValue cfg st2 v) fun st3 =>
    andThen (if tl = JList.nil then (st3, none)
             else
               andThen (runWrite cfg.processAnsi st3 (decoComma cfg))
                 fun st4 =>
               if compacting then (st4, none)
               else runWrite cfg.processAnsi st4 [' ']) fun st5 =>
    printElems cfg inline compacting (i + 1) st5 tl

end

/-- `DataPrinter._write_dict` as a stand-alone function (definitionally
the `.obj` case of `printValue`). -/
def printDict (cfg : PrintCfg) (st : WState) (o : JObj) :
    WState × Option WriteErr :=
  printValue cfg st (.obj o)

/-- The printer options of a default render call (`ansi=True`,
`animate=False`, styles enabled, `compact=False`, `force_inline=False`,
`decorate_items=True`) with a chosen `max_inline` budget — the defaults
of `_default_kwargs`, the budget being the one override the claims vary. -/
def defaultCfg (maxInline : Nat) : PrintCfg :=
  ⟨false, true, true, maxInline, false, false, true⟩

/-- `Logger.write` for a single non-string argument: the data printer
runs on the reset logger state, and the `finally` block flushes and
resets indents and buffer. -/
def renderTop (cfg : PrintCfg) (v : JValue) : WState × Option WriteErr :=
  let r := printValue cfg initSt v
  ({ written := r.1.written, flushed := r.1.written.length,
     indents := [[]], buffer := [] }, r.2)

/-- Number of line breaks in a rendered stream. -/
def countNL (s : List Char) : Nat := s.countP (· = '\n')

/-!
### Generic step lemmas for markup processing
-/

/-- One markup expansion step of the loop, for a pattern whose detection
is known and whose iteration stays under the ceiling. -/
theorem writeLoop_markup_step (an : Bool) (lo hi limit loops : Nat)
    (st : WState) (rng : List Nat) (p2 text rest : List Char)
    (hd : detectAnsiPattern ('/' :: ';' :: (p2 ++ rest)) =
      .ok ('/' :: ';' :: p2, text))
    (hlim : loops + 1 ≤ limit) :
    writeLoop true an lo hi limit loops st rng ('/' :: ';' :: (p2 ++ rest))
      = writeLoop true an lo hi limit (loops + 1) st rng (text ++ rest) := by
  rw [writeLoop.eq_def]
  dsimp only
  rw [if_pos ⟨rfl, by simp [ansiMark, List.take]⟩, hd]
  dsimp only
  rw [dif_neg (by omega)]
  congr 1
  have : ('/' :: ';' :: p2).length = p2.length + 2 := by simp
  rw [this]
  simp [List.drop, List.drop_left]

/-- The character class run of the escape regex never stops early inside
digits and semicolons. -/
theorem ansiTail_run (ds : List Char)
    (hds : ∀ c ∈ ds, c.isDigit = true ∨ c = ';') (rest : List Char) :
    ansiTail (ds ++ 'm' :: rest) = some (ds ++ ['m']) := by
  induction ds with
  | nil => simp [ansiTail]
  | cons c cs ih =>
    have hc := hds c (by simp)
    have hcm : ¬c = 'm' := by
      rcases hc with h | h
      · intro he; rw [he] at h; exact absurd h (by decide)
      · intro he; rw [he] at h; exact absurd h (by decide)
    have hcd : (c.isDigit || decide (c = ';')) = true := by
      rcases hc with h | h
      · simp [h]
      · simp [h]
    rw [List.cons_append, ansiTail, if_neg hcm, if_pos hcd,
      ih (fun x hx => hds x (by simp [hx]))]
    simp

/-- Writing one full ANSI escape: it goes to the stream but not to the
indents buffer, and the loop continues after it. -/
theorem writeLoop_esc (pa : Bool) (lo hi limit loops : Nat) (st : WState)
    (rng : List Nat) (ds rest : List Char)
    (hds : ∀ c ∈ ds, c.isDigit = true ∨ c = ';') :
    writeLoop pa false lo hi limit loops st rng
        ('\x1b' :: '[' :: (ds ++ 'm' :: rest))
      = writeLoop pa false lo hi limit (loops + 1)
          { st with written := st.written ++ '\x1b' :: '[' :: (ds ++ ['m']) }
          rng rest := by
  have hm : ansiEscMatch ('\x1b' :: '[' :: (ds ++ 'm' :: rest))
      = some ('\x1b' :: '[' :: (ds ++ ['m'])) := by
    simp [ansiEscMatch, ansiTail_run ds hds rest]
  rw [writeLoop.eq_def]
  dsimp only
  rw [if_neg (by simp [ansiMark, List.take]), if_neg (by decide), if_pos rfl,
    hm]
  dsimp only
  congr 1
  have : ('\x1b' :: '[' :: (ds ++ ['m'])).length = ds.length + 3 := by simp
  rw [this]
  have h2 : '\x1b' :: '[' :: (ds ++ 'm' :: rest)
      = ('\x1b' :: '[' :: (ds ++ ['m'])) ++ rest := by simp
  rw [h2]
  have h3 : ('\x1b' :: '[' :: (ds ++ ['m'])).length = ds.length + 3 := by simp
  rw [← h3, List.drop_left]

/-- `ansiText` presented in the shape `writeLoop_esc` consumes. -/
theorem ansiText_shape (codes : List Nat) (rest : List Char) :
    ansiText codes ++ rest
      = '\x1b' :: '[' :: (joinSemi (codes.map natChars) ++ 'm' :: rest) := by
  simp [ansiText]

/-- Every character `natCharsAux` emits is a decimal digit. -/
theorem natCharsAux_digits (n : Nat) : ∀ (fuel : Nat) (acc : List Char),
    (∀ c ∈ acc, c.isDigit = true) →
    ∀ c ∈ natCharsAux fuel n acc, c.isDigit = true := by
  induction n using Nat.strong_induction_on with
  | _ n ih =>
    intro fuel acc hacc c hc
    match fuel with
    | 0 => exact hacc c (by simpa [natCharsAux] using hc)
    | fuel + 1 =>
      rw [natCharsAux.eq_def] at hc
      dsimp only at hc
      by_cases hn : n < 10
      · rw [if_pos hn] at hc
        rw [List.mem_cons] at hc
        rcases hc with h | h
        · subst h
          have h10 : n % 10 < 10 := Nat.mod_lt _ (by omega)
          set k := n % 10 with hk
          interval_cases k <;> decide
        · exact hacc c h
      · rw [if_neg hn] at hc
        refine ih (n / 10) (by omega) _ _ ?_ c hc
        intro x hx
        rw [List.mem_cons] at hx
        rcases hx with h | h
        · subst h
          have h10 : n % 10 < 10 := Nat.mod_lt _ (by omega)
          set k := n % 10 with hk
          interval_cases k <;> decide
        · exact hacc x h

/-!
### Detection lemmas for the default styles
-/

theorem splitAll_ne_nil (sep : Char) (l : List Char) : splitAll sep l ≠ [] := by
  induction l with
  | nil => simp [splitAll]
  | cons a as ih =>
    cases hr : splitAll sep as with
    | nil => exact absurd hr ih
    | cons h t =>
      by_cases ha : a = sep <;> simp [splitAll, hr, ha]

theorem splitAll_headD (sep : Char) (l : List Char) :
    (splitAll sep l).headD [] = l.takeWhile (· ≠ sep) := by
  induction l with
  | nil => rfl
  | cons a as ih =>
    cases hr : splitAll sep as with
    | nil => exact absurd hr (splitAll_ne_nil sep as)
    | cons h t =>
      by_cases ha : a = sep
      · simp [splitAll, hr, ha, List.takeWhile]
      · rw [hr] at ih
        simp only [List.headD] at ih
        simp [splitAll, hr, ha, List.takeWhile, ih]

theorem detect_style_cwdi (junk : List Char) :
    detectAnsiPattern ('/' :: ';' ::
        (('c' :: 'w' :: ';' :: 'd' :: 'i' :: '/' :: []) ++ junk))
      = .ok ('/' :: ';' :: ('c' :: 'w' :: ';' :: 'd' :: 'i' :: '/' :: []),
             ansiText [37, 2]) := by
  simp [detectAnsiPattern, findTag, allTags, sKeys, ansiCodes, leadChars,
    maxLookahead, ansiMark, splitAll_headD, List.takeWhile, splitAll, combLoop,
    containsSeq, isDigits, isAnsiKey, codesOf, List.lookup, beq_iff_eq,
    ansiPattern, List.take]

theorem detect_style_cgbo (junk : List Char) :
    detectAnsiPattern ('/' :: ';' ::
        (('c' :: 'g' :: ';' :: 'b' :: 'o' :: '/' :: []) ++ junk))
      = .ok ('/' :: ';' :: ('c' :: 'g' :: ';' :: 'b' :: 'o' :: '/' :: []),
             ansiText [32, 1]) := by
  simp [detectAnsiPattern, findTag, allTags, sKeys, ansiCodes, leadChars,
    maxLookahead, ansiMark, splitAll_headD, List.takeWhile, splitAll, combLoop,
    containsSeq, isDigits, isAnsiKey, codesOf, List.lookup, beq_iff_eq,
    ansiPattern, List.take]

theorem detect_style_cwit (junk : List Char) :
    detectAnsiPattern ('/' :: ';' ::
        (('c' :: 'w' :: ';' :: 'i' :: 't' :: '/' :: []) ++ junk))
      = .ok ('/' :: ';' :: ('c' :: 'w' :: ';' :: 'i' :: 't' :: '/' :: []),
             ansiText [37, 3]) := by
  simp [detectAnsiPattern, findTag, allTags, sKeys, ansiCodes, leadChars,
    maxLookahead, ansiMark, splitAll_headD, List.takeWhile, splitAll, combLoop,
    containsSeq, isDigits, isAnsiKey, codesOf, List.lookup, beq_iff_eq,
    ansiPattern, List.take]

theorem detect_style_crdi (junk : List Char) :
    detectAnsiPattern ('/' :: ';' ::
        (('c' :: 'r' :: ';' :: 'd' :: 'i' :: '/' :: []) ++ junk))
      = .ok ('/' :: ';' :: ('c' :: 'r' :: ';' :: 'd' :: 'i' :: '/' :: []),
             ansiText [31, 2]) := by
  simp [detectAnsiPattern, findTag, allTags, sKeys, ansiCodes, leadChars,
    maxLookahead, ansiMark, splitAll_headD, List.takeWhile, splitAll, combLoop,
    containsSeq, isDigits, isAnsiKey, codesOf, List.lookup, beq_iff_eq,
    ansiPattern, List.take]

theorem detect_style_cbdi (junk : List Char) :
    detectAnsiPattern ('/' :: ';' ::
        (('c' :: 'b' :: ';' :: 'd' :: 'i' :: '/' :: []) ++ junk))
      = .ok ('/' :: ';' :: ('c' :: 'b' :: ';' :: 'd' :: 'i' :: '/' :: []),
             ansiText [34, 2]) := by
  simp [detectAnsiPattern, findTag, allTags, sKeys, ansiCodes, leadChars,
    maxLookahead, ansiMark, splitAll_headD, List.takeWhile, splitAll, combLoop,
    containsSeq, isDigits, isAnsiKey, codesOf, List.lookup, beq_iff_eq,
    ansiPattern, List.take]

theorem detect_style_cc (junk : List Char) :
    detectAnsiPattern ('/' :: ';' :: (('c' :: 'c' :: '/' :: []) ++ junk))
      = .ok ('/' :: ';' :: ('c' :: 'c' :: '/' :: []), ansiText [36]) := by
  simp [detectAnsiPattern, findTag, allTags, sKeys, ansiCodes, leadChars,
    maxLookahead, ansiMark, splitAll_headD, List.takeWhile, splitAll, combLoop,
    containsSeq, isDigits, isAnsiKey, codesOf, List.lookup, beq_iff_eq,
    ansiPattern, List.take]

theorem detect_style_cb (junk : List Char) :
    detectAnsiPattern ('/' :: ';' :: (('c' :: 'b' :: '/' :: []) ++ junk))
      = .ok ('/' :: ';' :: ('c' :: 'b' :: '/' :: []), ansiText [34]) := by
  simp [detectAnsiPattern, findTag, allTags, sKeys, ansiCodes, leadChars,
    maxLookahead, ansiMark, splitAll_headD, List.takeWhile, splitAll, combLoop,
    containsSeq, isDigits, isAnsiKey, codesOf, List.lookup, beq_iff_eq,
    ansiPattern, List.take]

theorem detect_arrow (junk : List Char) :
    detectAnsiPattern ('/' :: ';' ::
        (("_arrow/cb;di;/".data) ++ junk))
      = .ok ('/' :: ';' :: "_arrow/cb;di;/".data,
             ('/' :: ';' :: ('c' :: 'b' :: ';' :: 'd' :: 'i' :: '/' :: []))
               ++ arrowGlyph ++ ['/', ';']) := by
  simp [detectAnsiPattern, findTag, allTags, sKeys, ansiCodes, leadChars,
    maxLookahead, ansiMark, splitAll, splitFirstSeq, specialText, enclose,
    ansiPattern, joinSemi, List.take, List.takeWhile]


theorem writeLoop_nil (pa an : Bool) (lo hi limit loops : Nat) (st : WState)
    (rng : List Nat) :
    writeLoop pa an lo hi limit loops st rng [] = (st, none) := by
  rw [writeLoop.eq_def]

theorem runWrite_plain (pa : Bool) (st : WState) (s : List Char)
    (hs : ∀ c ∈ s, c ≠ '/' ∧ c ≠ '\n' ∧ c ≠ '\x1b') :
    runWrite pa st s
      = ({ st with written := st.written ++ s, buffer := st.buffer ++ s },
         none) := by
  rw [runWrite]
  have := writeLoop_plain_run pa 5 15 (s.length + 10000) s hs 0 st [] []
  rw [List.append_nil] at this
  rw [this, writeLoop_nil]

theorem digit_plain (c : Char) (h : c.isDigit = true) :
    c ≠ '/' ∧ c ≠ '\n' ∧ c ≠ '\x1b' := by
  refine ⟨?_, ?_, ?_⟩ <;> (rintro rfl; exact absurd h (by decide))

theorem joinSemi_codes_digits (codes : List Nat) :
    ∀ c ∈ joinSemi (codes.map natChars), c.isDigit = true ∨ c = ';' := by
  induction codes with
  | nil => simp [joinSemi]
  | cons n ns ih =>
    intro c hc
    match ns, hc with
    | [], hc =>
      simp only [List.map, joinSemi] at hc
      exact .inl (natCharsAux_digits n (n + 1) [] (by simp) c hc)
    | m :: ms, hc =>
      simp only [List.map, joinSemi, List.mem_append, List.mem_cons] at hc
      rcases hc with h | h | h
      · exact .inl (natCharsAux_digits n (n + 1) [] (by simp) c h)
      · exact .inr h
      · exact ih c (by simpa using h)

theorem ansiText_no_nl (codes : List Nat) :
    ∀ c ∈ ansiText codes, c ≠ '\n' := by
  intro c hc
  have h4 : c = '\x1b' ∨ c = '[' ∨ c ∈ joinSemi (codes.map natChars) ∨
      c = 'm' := by
    simpa [ansiText, or_assoc] using hc
  rcases h4 with rfl | rfl | h | rfl
  · decide
  · decide
  · rcases joinSemi_codes_digits codes c h with hd | hs
    · exact (digit_plain c hd).2.1
    · subst hs; decide
  · decide

/-- Writing a bare reset mark at the end of a string: one expansion and
one escape write. -/
theorem writeLoop_resetEnd (lo hi limit loops : Nat) (st : WState)
    (rng : List Nat) (hlim : loops + 1 ≤ limit) :
    writeLoop true false lo hi limit loops st rng ('/' :: ';' :: [])
      = ({ st with written := st.written ++ ansiText [0] }, none) := by
  have hdet0 : detectAnsiPattern ('/' :: ';' :: (([] : List Char) ++ []))
      = .ok ('/' :: ';' :: ([] : List Char), ansiText [0]) := by decide
  have h1 : ('/' :: ';' :: ([] : List Char))
      = '/' :: ';' :: (([] : List Char) ++ ([] : List Char)) := rfl
  rw [h1, writeLoop_markup_step false lo hi limit loops st rng [] _ []
    hdet0 hlim]
  rw [show (ansiText [0] ++ ([] : List Char)) =
    '\x1b' :: '[' :: (joinSemi ([0].map natChars) ++ 'm' :: []) from by
      simp [ansiText]]
  rw [writeLoop_esc true lo hi limit (loops + 1) _ rng _ []
    (joinSemi_codes_digits [0])]
  rw [writeLoop_nil]
  simp [ansiText]

/-- Writing one `build_simple_style` block with styles on: the opening
escape, the plain text (which alone reaches the indents buffer) and the
closing reset escape. -/
theorem runWrite_styled (cfg : PrintCfg) (hst : cfg.stylesOn = true)
    (S : List Char) (codes : List Nat) (t : List Char)
    (hdet : ∀ junk, detectAnsiPattern ('/' :: ';' :: ((S ++ ['/']) ++ junk))
      = .ok ('/' :: ';' :: (S ++ ['/']), ansiText codes))
    (ht : ∀ c ∈ t, c ≠ '/' ∧ c ≠ '\n' ∧ c ≠ '\x1b') (st : WState) :
    runWrite true st (buildSimpleStyle cfg S t)
      = ({ st with
           written := st.written ++ (ansiText codes ++ t ++ ansiText [0]),
           buffer := st.buffer ++ t }, none) := by
  rw [runWrite, buildSimpleStyle, if_neg (by simp [hst])]
  have hshape : (ansiMark ++ S ++ '/' :: t ++ ansiMark : List Char)
      = '/' :: ';' :: ((S ++ ['/']) ++ (t ++ ('/' :: ';' :: []))) := by
    simp [ansiMark]
  rw [hshape]
  have hLlen : ('/' :: ';' :: ((S ++ ['/']) ++ (t ++ ('/' :: ';' :: [])))
      : List Char).length + 10000 = S.length + t.length + 10005 := by
    simp; omega
  rw [hLlen]
  rw [writeLoop_markup_step false 5 15 (S.length + t.length + 10005) 0 st []
    (S ++ ['/']) _ _ (hdet _) (by omega)]
  rw [show (ansiText codes ++ (t ++ ('/' :: ';' :: []))) =
    '\x1b' :: '[' :: (joinSemi (codes.map natChars) ++
      'm' :: (t ++ ('/' :: ';' :: []))) from by simp [ansiText]]
  rw [writeLoop_esc true 5 15 (S.length + t.length + 10005) (0 + 1) _ []
    _ _ (joinSemi_codes_digits codes)]
  rw [writeLoop_plain_run true 5 15 (S.length + t.length + 10005) t ht
    (0 + 1 + 1) _ [] ('/' :: ';' :: [])]
  rw [writeLoop_resetEnd 5 15 (S.length + t.length + 10005)
    (0 + 1 + 1 + t.length) _ [] (by omega)]
  simp [List.append_assoc, ansiText]


/-- Plain characters: no markup opener, newline or escape. -/
def plainStr (s : List Char) : Bool :=
  s.all fun c => !(c == '/') && !(c == '\n') && !(c == '\x1b')

/-- Scalar values whose rendered text is plain. -/
def scalarPlain : JValue → Bool
  | .str s => plainStr s.data
  | .num _ => true
  | .bool _ => true
  | .null => true
  | _ => false

/-- A flat map: string keys with plain characters and plain scalar
values only. -/
def flatPlainObj : JObj → Bool
  | .nil => true
  | .cons k v tl => plainStr k.data && scalarPlain v && flatPlainObj tl

theorem plainStr_spec (s : List Char) (h : plainStr s = true) :
    ∀ c ∈ s, c ≠ '/' ∧ c ≠ '\n' ∧ c ≠ '\x1b' := by
  intro c hc
  have h2 := List.all_eq_true.mp h c hc
  simp only [Bool.and_eq_true, Bool.not_eq_true', beq_eq_false_iff_ne] at h2
  exact ⟨h2.1.1, h2.1.2, h2.2⟩

/-- Expected stream output of the styled opening brace. -/
def startOutD : List Char := ansiText [37, 2] ++ '\x7b' :: ansiText [0]

/-- Expected stream output of the styled closing brace. -/
def endOutD : List Char := ansiText [37, 2] ++ '\x7d' :: ansiText [0]

/-- Expected stream output of the styled comma. -/
def commaOutD : List Char := ansiText [37, 2] ++ ',' :: ansiText [0]

/-- Expected stream output of the item decoration (arrow). -/
def itemOutD : List Char :=
  ' ' :: (ansiText [34, 2] ++ (arrowGlyph ++ (ansiText [0] ++
    (ansiText [0] ++ [' ']))))

/-- Buffered characters of the item decoration. -/
def itemBufD : List Char := ' ' :: (arrowGlyph ++ [' '])

/-- Expected stream output of a styled key decoration. -/
def keyOutD (k : List Char) : List Char :=
  ansiText [32, 1] ++ (k ++ (ansiText [37, 2] ++ (':' ::
    (ansiText [0] ++ ansiText [0]))))

/-- Expected stream output of a styled scalar value. -/
def valOutD : JValue → List Char
  | .bool b => ansiText [36] ++ ((if b then "True".data else "False".data)
      ++ ansiText [0])
  | .num n => ansiText [34] ++ (intChars n ++ ansiText [0])
  | .str s => ansiText [37, 3] ++ ('\'' :: (s.data ++ ('\'' :: ansiText [0])))
  | .null => ansiText [31, 2] ++ ("None".data ++ ansiText [0])
  | _ => []

/-- Buffered (style-stripped) characters of a scalar value. -/
def valBufD : JValue → List Char
  | .bool b => if b then "True".data else "False".data
  | .num n => intChars n
  | .str s => '\'' :: (s.data ++ ['\''])
  | .null => "None".data
  | _ => []

theorem intChars_plain (n : Int) :
    ∀ c ∈ intChars n, c ≠ '/' ∧ c ≠ '\n' ∧ c ≠ '\x1b' := by
  intro c hc
  rw [intChars] at hc
  by_cases hn : n < 0
  · rw [if_pos hn, List.mem_cons] at hc
    rcases hc with rfl | hc
    · exact ⟨by decide, by decide, by decide⟩
    · exact digit_plain c (natCharsAux_digits _ _ _ (by simp) c hc)
  · rw [if_neg hn] at hc
    exact digit_plain c (natCharsAux_digits _ _ _ (by simp) c hc)

theorem write_startD (mi : Nat) (st : WState) :
    runWrite true st (decoBracket (defaultCfg mi) true true)
      = ({ st with written := st.written ++ startOutD,
                   buffer := st.buffer ++ ['\x7b'] }, none) := by
  rw [decoBracket]
  rw [show "cw;di".data = ['c', 'w', ';', 'd', 'i'] from rfl]
  simp only [if_pos rfl, if_true]
  rw [runWrite_styled (defaultCfg mi) rfl ['c', 'w', ';', 'd', 'i'] [37, 2]
    ['\x7b'] (fun junk => detect_style_cwdi junk) (by decide) st]
  simp [startOutD]

theorem write_endD (mi : Nat) (st : WState) :
    runWrite true st (decoBracket (defaultCfg mi) true false)
      = ({ st with written := st.written ++ endOutD,
                   buffer := st.buffer ++ ['\x7d'] }, none) := by
  rw [decoBracket]
  rw [show "cw;di".data = ['c', 'w', ';', 'd', 'i'] from rfl]
  simp only [if_pos rfl, if_true, if_neg (by decide : ¬false = true)]
  rw [runWrite_styled (defaultCfg mi) rfl ['c', 'w', ';', 'd', 'i'] [37, 2]
    ['\x7d'] (fun junk => detect_style_cwdi junk) (by decide) st]
  simp [endOutD]

theorem write_commaD (mi : Nat) (st : WState) :
    runWrite true st (decoComma (defaultCfg mi))
      = ({ st with written := st.written ++ commaOutD,
                   buffer := st.buffer ++ [','] }, none) := by
  rw [decoComma]
  rw [show "cw;di".data = ['c', 'w', ';', 'd', 'i'] from rfl]
  rw [runWrite_styled (defaultCfg mi) rfl ['c', 'w', ';', 'd', 'i'] [37, 2]
    [','] (fun junk => detect_style_cwdi junk) (by decide) st]
  simp [commaOutD]

theorem write_valD (mi : Nat) (st : WState) (v : JValue)
    (hv : scalarPlain v = true) :
    runWrite true st (decoValue (defaultCfg mi) v)
      = ({ st with written := st.written ++ valOutD v,
                   buffer := st.buffer ++ valBufD v }, none) := by
  match v, hv with
  | .bool true, _ =>
    rw [show decoValue (defaultCfg mi) (.bool true)
      = buildSimpleStyle (defaultCfg mi) ['c', 'c'] "True".data from rfl]
    rw [runWrite_styled (defaultCfg mi) rfl ['c', 'c'] [36] "True".data
      (fun junk => detect_style_cc junk) (by decide) st]
    simp [valOutD, valBufD]
  | .bool false, _ =>
    rw [show decoValue (defaultCfg mi) (.bool false)
      = buildSimpleStyle (defaultCfg mi) ['c', 'c'] "False".data from rfl]
    rw [runWrite_styled (defaultCfg mi) rfl ['c', 'c'] [36] "False".data
      (fun junk => detect_style_cc junk) (by decide) st]
    simp [valOutD, valBufD]
  | .null, _ =>
    rw [show decoValue (defaultCfg mi) .null
      = buildSimpleStyle (defaultCfg mi) ['c', 'r', ';', 'd', 'i']
          "None".data from rfl]
    rw [runWrite_styled (defaultCfg mi) rfl ['c', 'r', ';', 'd', 'i'] [31, 2]
      "None".data (fun junk => detect_style_crdi junk) (by decide) st]
    simp [valOutD, valBufD]
  | .num n, _ =>
    rw [show decoValue (defaultCfg mi) (.num n)
      = buildSimpleStyle (defaultCfg mi) ['c', 'b'] (intChars n) from rfl]
    rw [runWrite_styled (defaultCfg mi) rfl ['c', 'b'] [34] (intChars n)
      (fun junk => detect_style_cb junk) (intChars_plain n) st]
    simp [valOutD, valBufD]
  | .obj o, hv => exact absurd hv (by simp [scalarPlain])
  | .arr l, hv => exact absurd hv (by simp [scalarPlain])
  | .str s, hv =>
    have hs : ∀ c ∈ ('\'' :: (s.data ++ ['\''])),
        c ≠ '/' ∧ c ≠ '\n' ∧ c ≠ '\x1b' := by
      intro c hc
      rw [List.mem_cons] at hc
      rcases hc with rfl | hc
      · exact ⟨by decide, by decide, by decide⟩
      · rw [List.mem_append] at hc
        rcases hc with hc | hc
        · exact plainStr_spec s.data (by simpa [scalarPlain] using hv) c hc
        · simp only [List.mem_singleton] at hc
          subst hc
          exact ⟨by decide, by decide, by decide⟩
    rw [show decoValue (defaultCfg mi) (.str s)
      = buildSimpleStyle (defaultCfg mi) ['c', 'w', ';', 'i', 't']
          ('\'' :: (s.data ++ ['\''])) from by
        simp [decoValue, buildSimpleStyle]]
    rw [runWrite_styled (defaultCfg mi) rfl ['c', 'w', ';', 'i', 't'] [37, 3]
      ('\'' :: (s.data ++ ['\''])) (fun junk => detect_style_cwit junk) hs st]
    simp [valOutD, valBufD]

/-- Writing the item decoration: the arrow special expands through the
`cb;di` style; the space and glyph are buffered, the escapes are not. -/
theorem write_itemD (mi : Nat) (st : WState) :
    runWrite true st (decoItemKey (defaultCfg mi))
      = ({ st with written := st.written ++ itemOutD,
                   buffer := st.buffer ++ itemBufD }, none) := by
  simp [decoItemKey, runWrite, writeLoop, detectAnsiPattern, findTag, allTags,
    sKeys, ansiCodes, leadChars, maxLookahead, ansiMark, splitAll,
    splitFirstSeq, specialText, enclose, ansiPattern, joinSemi, List.take,
    List.takeWhile, itemOutD, itemBufD, ansiText, natChars, natCharsAux,
    arrowGlyph, combLoop, containsSeq, isDigits, isAnsiKey, codesOf,
    List.lookup, beq_iff_eq, ansiEscMatch, ansiTail, flushSt, drawRand,
    defaultCfg, show Char.ofNat 48 = '0' from rfl,
    show Char.ofNat 50 = '2' from rfl, show Char.ofNat 51 = '3' from rfl,
    show Char.ofNat 52 = '4' from rfl]


/-- Writing the styled key decoration: the key and its colon are
buffered, wrapped in `objk` and `sep` escapes on the stream. -/
theorem write_keyD (mi : Nat) (st : WState) (k : List Char)
    (hk : ∀ c ∈ k, c ≠ '/' ∧ c ≠ '\n' ∧ c ≠ '\x1b') :
    runWrite true st (decoKey (defaultCfg mi) k)
      = ({ st with written := st.written ++ keyOutD k,
                   buffer := st.buffer ++ (k ++ [':']) }, none) := by
  have hshape : decoKey (defaultCfg mi) k
      = '/' :: ';' :: ((['c', 'g', ';', 'b', 'o'] ++ ['/']) ++
          (k ++ ('/' :: ';' :: ((['c', 'w', ';', 'd', 'i'] ++ ['/']) ++
            (':' :: ('/' :: ';' :: ('/' :: ';' :: []))))))) := by
    simp [decoKey, buildSimpleStyle, ansiMark, defaultCfg]
  rw [runWrite, hshape]
  have hLlen : ('/' :: ';' :: ((['c', 'g', ';', 'b', 'o'] ++ ['/']) ++
      (k ++ ('/' :: ';' :: ((['c', 'w', ';', 'd', 'i'] ++ ['/']) ++
        (':' :: ('/' :: ';' :: ('/' :: ';' :: []))))))) : List Char).length
      + 10000 = k.length + 10021 := by
    simp
  rw [hLlen]
  rw [writeLoop_markup_step false 5 15 (k.length + 10021) 0 st []
    (['c', 'g', ';', 'b', 'o'] ++ ['/']) _ _ (detect_style_cgbo _) (by omega)]
  rw [show (ansiText [32, 1] ++ (k ++ ('/' :: ';' ::
      ((['c', 'w', ';', 'd', 'i'] ++ ['/']) ++
        (':' :: ('/' :: ';' :: ('/' :: ';' :: []))))))) =
    '\x1b' :: '[' :: (joinSemi ([32, 1].map natChars) ++
      'm' :: (k ++ ('/' :: ';' :: ((['c', 'w', ';', 'd', 'i'] ++ ['/']) ++
        (':' :: ('/' :: ';' :: ('/' :: ';' :: []))))))) from by simp [ansiText]]
  rw [writeLoop_esc true 5 15 (k.length + 10021) (0 + 1) _ [] _ _
    (joinSemi_codes_digits [32, 1])]
  rw [writeLoop_plain_run true 5 15 (k.length + 10021) k hk (0 + 1 + 1) _ []]
  rw [writeLoop_markup_step false 5 15 (k.length + 10021) (0 + 1 + 1 + k.length)
    _ [] (['c', 'w', ';', 'd', 'i'] ++ ['/']) _ _ (detect_style_cwdi _)
    (by omega)]
  rw [show (ansiText [37, 2] ++ (':' :: ('/' :: ';' :: ('/' :: ';' :: []))))
    = '\x1b' :: '[' :: (joinSemi ([37, 2].map natChars) ++
      'm' :: (':' :: ('/' :: ';' :: ('/' :: ';' :: [])))) from by
    simp [ansiText]]
  rw [writeLoop_esc true 5 15 (k.length + 10021) (0 + 1 + 1 + k.length + 1)
    _ [] _ _ (joinSemi_codes_digits [37, 2])]
  rw [show (':' :: ('/' :: ';' :: ('/' :: ';' :: [])) : List Char)
    = [':'] ++ ('/' :: ';' :: ('/' :: ';' :: [])) from rfl]
  rw [writeLoop_plain_run true 5 15 (k.length + 10021) [':'] (by decide)
    (0 + 1 + 1 + k.length + 1 + 1) _ []]
  rw [show ('/' :: ';' :: ('/' :: ';' :: []) : List Char)
    = '/' :: ';' :: (([] : List Char) ++ ('/' :: ';' :: [])) from rfl]
  have hdet0 : detectAnsiPattern ('/' :: ';' ::
      (([] : List Char) ++ ('/' :: ';' :: [])))
      = .ok ('/' :: ';' :: ([] : List Char), ansiText [0]) := by decide
  rw [writeLoop_markup_step false 5 15 (k.length + 10021)
    (0 + 1 + 1 + k.length + 1 + 1 + [':'].length) _ [] [] _ _ hdet0
    (by simp; omega)]
  rw [show (ansiText [0] ++ ('/' :: ';' :: []))
    = '\x1b' :: '[' :: (joinSemi ([0].map natChars) ++
      'm' :: ('/' :: ';' :: [])) from by simp [ansiText]]
  rw [writeLoop_esc true 5 15 (k.length + 10021)
    (0 + 1 + 1 + k.length + 1 + 1 + [':'].length + 1) _ [] _ _
    (joinSemi_codes_digits [0])]
  rw [writeLoop_resetEnd 5 15 (k.length + 10021)
    (0 + 1 + 1 + k.length + 1 + 1 + [':'].length + 1 + 1) _ []
    (by simp; omega)]
  simp [keyOutD, List.append_assoc, ansiText]

/-!
### C9: the inline-layout threshold

`_default_inline` renders the candidate value on the trial logger and
compares the produced length against `max_inline - len(indents[-1])`
(logger.py:221-227).  The lemmas below compute, for a flat map of plain
scalars rendered with the default options, both sides of that decision
and the exact stream output of `_write_dict` in each case.
-/

/-- `_new_line(" ")` one level inside a top-level dict: the indent stack
holds the opening brace, so a newline and one indent space go to the
stream and the buffer restarts at the brace. -/
theorem newLine_top (st : WState) (hind : st.indents = [[], ['\x7b']]) :
    newLine st
      = ({ st with written := st.written ++ ['\n', ' '],
                   buffer := ['\x7b'] }, none) := by
  simp [newLine, hind]

/-- A plain scalar prints through `decorate_value` alone. -/
theorem printValue_scalar (cfg : PrintCfg) (st : WState) (v : JValue)
    (hv : scalarPlain v = true) :
    printValue cfg st v = runWrite cfg.processAnsi st (decoValue cfg v) := by
  match v, hv with
  | .num n, _ => rfl
  | .str s, _ => rfl
  | .bool b, _ => rfl
  | .null, _ => rfl

/-- The entry loop does nothing on an empty dict. -/
theorem printEntries_nil (cfg : PrintCfg) (inline compacting first : Bool)
    (st : WState) :
    printEntries cfg inline compacting first st JObj.nil = (st, none) := rfl

/-- Expected stream output of the dict entry loop under the default
options, one indent level deep. -/
def entriesOutD (inline first : Bool) : JObj → List Char
  | .nil => []
  | .cons k v tl =>
    (if first || inline then [] else ['\n', ' '])
      ++ ((if inline then [] else itemOutD)
      ++ (keyOutD k.data ++ ([' '] ++ (valOutD v
      ++ ((if tl = JObj.nil then [] else commaOutD ++ [' '])
      ++ entriesOutD inline false tl)))))

/-- Expected indents-buffer contents after the dict entry loop. -/
def entriesBufD (inline first : Bool) (buf : List Char) : JObj → List Char
  | .nil => buf
  | .cons k v tl =>
    entriesBufD inline false
      ((if first || inline then buf else ['\x7b'])
        ++ ((if inline then [] else itemBufD)
        ++ (k.data ++ ([':'] ++ ([' '] ++ (valBufD v
        ++ (if tl = JObj.nil then [] else [',', ' '])))))))
      tl

/-- The dict entry loop of the default render on a flat plain map one
indent level deep writes exactly the decorated entries, raises nothing
and keeps the indent stack. -/
theorem printEntries_flatD (mi : Nat) (inline : Bool) :
    ∀ (o : JObj), flatPlainObj o = true →
    ∀ (first : Bool) (st : WState), st.indents = [[], ['\x7b']] →
    printEntries (defaultCfg mi) inline false first st o
      = ({ st with written := st.written ++ entriesOutD inline first o,
                   buffer := entriesBufD inline first st.buffer o }, none) := by
  intro o
  induction o using JObj.recO with
  | hnil =>
    intro _ first st hind
    rw [printEntries_nil]
    simp [entriesOutD, entriesBufD]
  | hcons k v tl ih =>
    intro hflat first st hind
    have h3 : plainStr k.data = true ∧ scalarPlain v = true ∧
        flatPlainObj tl = true := by
      simpa [flatPlainObj, Bool.and_eq_true, and_assoc] using hflat
    have hkp := plainStr_spec k.data h3.1
    have Wk := fun st' => write_keyD mi st' k.data hkp
    have Wv := fun st' => write_valD mi st' v h3.2.1
    have Wpv : ∀ st', printValue (defaultCfg mi) st' v
        = ({ st' with written := st'.written ++ valOutD v,
                      buffer := st'.buffer ++ valBufD v }, none) := by
      intro st'
      rw [printValue_scalar _ _ _ h3.2.1]
      rw [show (defaultCfg mi).processAnsi = true from rfl]
      exact Wv st'
    have Wsp := fun st' => runWrite_plain true st' [' ']
      (by decide : ∀ c ∈ [' '], c ≠ '/' ∧ c ≠ '\n' ∧ c ≠ '\x1b')
    have Wc := fun st' => write_commaD mi st'
    have Wit := fun st' => write_itemD mi st'
    have Wnl := newLine_top st hind
    have IH2 := ih h3.2.2 false
    have aok : ∀ (s : WState) (f : WState → WState × Option WriteErr),
        andThen (s, none) f = f s := fun _ _ => rfl
    cases inline <;> cases first <;> cases tl <;>
      (rw [printEntries]
       rw [show (defaultCfg mi).processAnsi = true from rfl]
       simp +decide only [aok, ite_true, ite_false, reduceCtorEq, Wk, Wsp,
         Wpv, Wc, Wit, Wnl, IH2, hind, printEntries_nil]
       simp [entriesOutD, entriesBufD, List.append_assoc])

end AnnoEngine
